import Mathlib

/-!
Shallow embedding of the go-doboz compression codec (common.go,
compressor.go, decompressor.go, dictionary.go) together with proofs about
its header codec, match codec, match finder and driver routines.

Modelling conventions:
* Go `int` values are modelled as `ℤ` (64-bit overflow never occurs at the
  values reached by this code, except where a conversion such as `uint32`
  truncates, which is modelled by an explicit `% 2 ^ k`).
* Go `uint` values are modelled as `ℕ` with an explicit `% 2 ^ 64` where the
  source can wrap (the FNV hash, integer-to-uint conversions).
* Byte buffers are total functions `ℕ → ℕ` (or `ℤ → ℕ` for the dictionary's
  input buffer, which is indexed by `bufferBase + relative position`),
  together with an explicit length where the source inspects `len`.
  Lists of bytes are used where the source slices a caller-supplied buffer.
* Loops whose iteration count is bounded by the source itself (the match
  finder's `matchCount` limit, a match-extension bounded by
  `maxMatchLength`, the compressor's main loop bounded by the input length)
  are written as fuel recursion where the fuel mirrors the source's own
  bound exactly, so the guard `fuel = 0` coincides with the source's exit
  condition.
-/

namespace Doboz

/-! ## Constants (common.go, dictionary.go) -/

def VERSION : ℤ := 0

def WORD_SIZE : ℤ := 4

def MIN_MATCH_LENGTH : ℤ := 3

def MAX_MATCH_LENGTH : ℤ := 255 + MIN_MATCH_LENGTH

def MAX_MATCH_CANDIDATE_COUNT : ℕ := 128

def DICTIONARY_SIZE : ℤ := 1 <<< 21

def TAIL_LENGTH : ℤ := 2 * WORD_SIZE

def TRAILING_DUMMY_SIZE : ℤ := WORD_SIZE

def MaxInt : ℤ := 2 ^ 63 - 1

def HASH_TABLE_SIZE : ℕ := 1 <<< 20

def CHILD_COUNT : ℕ := 2 ^ 21 * 2

def INVALID_POSITION : ℤ := -1

def REBASE_THRESHOLD : ℤ := (MaxInt - DICTIONARY_SIZE + 1) / DICTIONARY_SIZE * DICTIONARY_SIZE

/-! ## Core data types (common.go) -/

inductive Result where
  | RESULT_OK
  | RESULT_ERROR_BUFFER_TOO_SMALL
  | RESULT_ERROR_CORRUPTED_DATA
  | RESULT_ERROR_UNSUPPORTED_VERSION
deriving DecidableEq, Repr

export Result (RESULT_OK RESULT_ERROR_BUFFER_TOO_SMALL RESULT_ERROR_CORRUPTED_DATA RESULT_ERROR_UNSUPPORTED_VERSION)

structure Match where
  Length : ℤ
  Offset : ℤ
deriving DecidableEq, Repr

structure Header where
  UncompressedSize : ℕ
  CompressedSize : ℕ
  Version : ℤ
  IsStored : Bool
deriving DecidableEq, Repr

/-- Go zero value of `Header`. -/
def Header.zero : Header := ⟨0, 0, 0, false⟩

/-- Go conversion `uint(x)` of a 64-bit `int` (two's-complement wrap). -/
def uintCast (x : ℤ) : ℕ := (x % 2 ^ 64).toNat

/-! ## Byte input/output primitives (common.go `FastRead`/`FastWrite`)

`FastRead` reads 1, 2 or 4 little-endian bytes (for size 3 it reads 4, as
the source warns).  `FastWrite` writes 1, 2 or 4 little-endian bytes of
`byte(word)`, `uint16(word)` or `uint32(word)`. -/

def setByte (dest : ℕ → ℕ) (i v : ℕ) : ℕ → ℕ := fun j => if j = i then v else dest j

def fastRead (src : ℕ → ℕ) (off size : ℕ) : ℕ :=
  match size with
  | 4 => src off + 256 * src (off + 1) + 65536 * src (off + 2) + 16777216 * src (off + 3)
  | 3 => src off + 256 * src (off + 1) + 65536 * src (off + 2) + 16777216 * src (off + 3)
  | 2 => src off + 256 * src (off + 1)
  | 1 => src off
  | _ => 0

def fastWrite (dest : ℕ → ℕ) (off word size : ℕ) : ℕ → ℕ :=
  match size with
  | 4 =>
      let w := word % 2 ^ 32
      setByte (setByte (setByte (setByte dest off (w % 256)) (off + 1) (w / 256 % 256))
        (off + 2) (w / 65536 % 256)) (off + 3) (w / 16777216 % 256)
  | 3 =>
      let w := word % 2 ^ 32
      setByte (setByte (setByte (setByte dest off (w % 256)) (off + 1) (w / 256 % 256))
        (off + 2) (w / 65536 % 256)) (off + 3) (w / 16777216 % 256)
  | 2 =>
      let w := word % 2 ^ 16
      setByte (setByte dest off (w % 256)) (off + 1) (w / 256 % 256)
  | 1 => setByte dest off (word % 256)
  | _ => dest

/-! ## Match codec (compressor.go `encodeMatch`, decompressor.go `decodeMatch`) -/

/-- The `(word, size)` pair computed by `Compressor.encodeMatch`; the write
into the destination buffer (performed only when the destination is non-nil)
is factored out into `encodeMatch` below. -/
def encodeMatchWordSize (m : Match) : ℕ × ℕ :=
  let lengthCode := uintCast (m.Length - MIN_MATCH_LENGTH)
  let offsetCode := uintCast m.Offset
  if lengthCode = 0 ∧ offsetCode < 64 then
    (offsetCode <<< 2, 1)
  else if lengthCode = 0 ∧ offsetCode < 16384 then
    ((offsetCode <<< 2) ||| 1, 2)
  else if lengthCode < 16 ∧ offsetCode < 1024 then
    ((offsetCode <<< 6) ||| (lengthCode <<< 2) ||| 2, 2)
  else if lengthCode < 32 ∧ offsetCode < 65536 then
    ((offsetCode <<< 8) ||| (lengthCode <<< 3) ||| 3, 3)
  else
    ((offsetCode <<< 11) ||| (lengthCode <<< 3) ||| 7, 4)

/-- `Compressor.encodeMatch` with a non-nil destination: writes the coded
match at `off` and returns the new buffer and the coded size. -/
def encodeMatch (m : Match) (dest : ℕ → ℕ) (off : ℕ) : (ℕ → ℕ) × ℕ :=
  let ws := encodeMatchWordSize m
  (fastWrite dest off ws.1 ws.2, ws.2)

/-- `Compressor.getMatchCodedSize`: `encodeMatch` with a nil destination,
returning only the size. -/
def getMatchCodedSize (m : Match) : ℤ := ((encodeMatchWordSize m).2 : ℤ)

structure LookupTable where
  mask : ℕ
  offsetShift : ℕ
  lengthMask : ℕ
  lengthShift : ℕ
  size : ℕ
deriving DecidableEq, Repr

/-- The decoder's 8-row lookup table (`Decompressor.initialize`). -/
def lut : List LookupTable :=
  [ ⟨0xff, 2, 0, 0, 1⟩,
    ⟨0xffff, 2, 0, 0, 2⟩,
    ⟨0xffff, 6, 15, 2, 2⟩,
    ⟨0xffffff, 8, 31, 3, 3⟩,
    ⟨0xff, 2, 0, 0, 1⟩,
    ⟨0xffff, 2, 0, 0, 2⟩,
    ⟨0xffff, 6, 15, 2, 2⟩,
    ⟨0xffffffff, 11, 255, 3, 4⟩ ]

/-- `Decompressor.decodeMatch`: reads 4 bytes at `off`, indexes the lookup
table with the low 3 bits, and recovers the match and its coded size. -/
def decodeMatch (src : ℕ → ℕ) (off : ℕ) : Match × ℕ :=
  let word := fastRead src off 4
  let i := word &&& 7
  let row := lut.getD i ⟨0, 0, 0, 0, 0⟩
  ({ Offset := (((word &&& row.mask) >>> row.offsetShift : ℕ) : ℤ),
     Length := ((((word >>> row.lengthShift) &&& row.lengthMask : ℕ)) : ℤ) + MIN_MATCH_LENGTH },
   row.size)

/-! ## Best-match selection (compressor.go `getBestMatch`) -/

/-- `Compressor.getBestMatch`: scan the candidates in order and return the
first one whose length strictly exceeds its coded size; the zero match
(length 0, offset 0) if none qualifies. -/
def getBestMatch : List Match → Match
  | [] => ⟨0, 0⟩
  | c :: rest => if c.Length > getMatchCodedSize c then c else getBestMatch rest

/-! ## Arithmetic helpers for the bit-level proofs -/

theorem lor_shiftLeft_add (a b k : ℕ) (h : b < 2 ^ k) :
    (a <<< k) ||| b = a * 2 ^ k + b := by
  apply Nat.eq_of_testBit_eq
  intro i
  rw [Nat.testBit_lor, Nat.testBit_shiftLeft]
  rcases Nat.lt_or_ge i k with hi | hi
  · have key : (a * 2 ^ k + b).testBit i = b.testBit i := by
      rw [Nat.testBit_to_div_mod, Nat.testBit_to_div_mod]
      have hsplit : (2 : ℕ) ^ k = 2 ^ i * 2 ^ (k - i) := by
        rw [← pow_add]; congr 1; omega
      have hdiv : (a * 2 ^ k + b) / 2 ^ i = a * 2 ^ (k - i) + b / 2 ^ i := by
        rw [hsplit, show a * (2 ^ i * 2 ^ (k - i)) + b = 2 ^ i * (a * 2 ^ (k - i)) + b by ring,
          Nat.mul_add_div (Nat.pos_pow_of_pos i (by norm_num))]
      rw [hdiv]
      have heven : a * 2 ^ (k - i) % 2 = 0 := by
        obtain ⟨c, hc⟩ : (2 : ℕ) ∣ 2 ^ (k - i) := dvd_pow_self 2 (by omega)
        rw [hc, show a * (2 * c) = 2 * (a * c) by ring]
        exact Nat.mul_mod_right 2 (a * c)
      have hmod : (a * 2 ^ (k - i) + b / 2 ^ i) % 2 = b / 2 ^ i % 2 := by omega
      rw [hmod]
    rw [key]
    have : ¬ i ≥ k := by omega
    simp [this]
  · have hb : b.testBit i = false :=
      Nat.testBit_lt_two_pow (lt_of_lt_of_le h (Nat.pow_le_pow_right (by norm_num) hi))
    have key : (a * 2 ^ k + b).testBit i = a.testBit (i - k) := by
      rw [Nat.testBit_to_div_mod, Nat.testBit_to_div_mod]
      have hsplit : (2 : ℕ) ^ i = 2 ^ k * 2 ^ (i - k) := by
        rw [← pow_add]; congr 1; omega
      rw [hsplit, ← Nat.div_div_eq_div_mul]
      congr 2
      rw [show a * 2 ^ k + b = 2 ^ k * a + b by ring,
        Nat.mul_add_div (Nat.pos_pow_of_pos k (by norm_num)), Nat.div_eq_of_lt h,
        Nat.add_zero]
    rw [key, hb]
    simp [hi]

theorem land_7 (x : ℕ) : x &&& 7 = x % 8 := by
  have := Nat.and_pow_two_sub_one_eq_mod x 3
  norm_num at this
  exact this

theorem land_15 (x : ℕ) : x &&& 15 = x % 16 := by
  have := Nat.and_pow_two_sub_one_eq_mod x 4
  norm_num at this
  exact this

theorem land_31 (x : ℕ) : x &&& 31 = x % 32 := by
  have := Nat.and_pow_two_sub_one_eq_mod x 5
  norm_num at this
  exact this

theorem land_255 (x : ℕ) : x &&& 255 = x % 256 := by
  have := Nat.and_pow_two_sub_one_eq_mod x 8
  norm_num at this
  exact this

theorem land_65535 (x : ℕ) : x &&& 65535 = x % 65536 := by
  have := Nat.and_pow_two_sub_one_eq_mod x 16
  norm_num at this
  exact this

theorem land_16777215 (x : ℕ) : x &&& 16777215 = x % 16777216 := by
  have := Nat.and_pow_two_sub_one_eq_mod x 24
  norm_num at this
  exact this

theorem land_4294967295 (x : ℕ) : x &&& 4294967295 = x % 4294967296 := by
  have := Nat.and_pow_two_sub_one_eq_mod x 32
  norm_num at this
  exact this

theorem shiftRight_div (x k : ℕ) : x >>> k = x / 2 ^ k := Nat.shiftRight_eq_div_pow x k

theorem setByte_eq (d : ℕ → ℕ) (i v : ℕ) : setByte d i v i = v := by simp [setByte]

theorem setByte_ne (d : ℕ → ℕ) (i v j : ℕ) (h : j ≠ i) : setByte d i v j = d j := by
  simp [setByte, h]

/-- Reading back 4 bytes after a 4-byte or 3-byte fast write recovers
`word % 2 ^ 32` (both write sizes store all four bytes of `uint32(word)`). -/
theorem fastRead_fastWrite_word (g : ℕ → ℕ) (off w s : ℕ) (hs : s = 3 ∨ s = 4) :
    fastRead (fastWrite g off w s) off 4 = w % 2 ^ 32 := by
  have hbytes : ∀ G, G = fastWrite g off w s →
      G off = w % 2 ^ 32 % 256 ∧ G (off + 1) = w % 2 ^ 32 / 256 % 256 ∧
      G (off + 2) = w % 2 ^ 32 / 65536 % 256 ∧ G (off + 3) = w % 2 ^ 32 / 16777216 % 256 := by
    intro G hG
    rcases hs with hs | hs <;> subst hs <;>
      simp only [fastWrite] at hG <;> subst hG <;>
      refine ⟨?_, ?_, ?_, ?_⟩ <;>
      first
        | rw [setByte_eq]
        | (rw [setByte_ne _ _ _ _ (by omega), setByte_ne _ _ _ _ (by omega),
            setByte_ne _ _ _ _ (by omega), setByte_eq])
        | (rw [setByte_ne _ _ _ _ (by omega), setByte_ne _ _ _ _ (by omega), setByte_eq])
        | (rw [setByte_ne _ _ _ _ (by omega), setByte_eq])
  obtain ⟨h0, h1, h2, h3⟩ := hbytes _ rfl
  simp only [fastRead, h0, h1, h2, h3]
  omega

/-- Reading back 4 bytes after a 2-byte fast write: the low 16 bits are
`word % 2 ^ 16`, the high bytes are untouched. -/
theorem fastRead_fastWrite_two (g : ℕ → ℕ) (off w : ℕ) :
    fastRead (fastWrite g off w 2) off 4 =
      w % 2 ^ 16 + 65536 * g (off + 2) + 16777216 * g (off + 3) := by
  have h0 : fastWrite g off w 2 off = w % 2 ^ 16 % 256 := by
    simp only [fastWrite]
    rw [setByte_ne _ _ _ _ (by omega), setByte_eq]
  have h1 : fastWrite g off w 2 (off + 1) = w % 2 ^ 16 / 256 % 256 := by
    simp only [fastWrite]
    rw [setByte_eq]
  have h2 : fastWrite g off w 2 (off + 2) = g (off + 2) := by
    simp only [fastWrite]
    rw [setByte_ne _ _ _ _ (by omega), setByte_ne _ _ _ _ (by omega)]
  have h3 : fastWrite g off w 2 (off + 3) = g (off + 3) := by
    simp only [fastWrite]
    rw [setByte_ne _ _ _ _ (by omega), setByte_ne _ _ _ _ (by omega)]
  simp only [fastRead, h0, h1, h2, h3]
  omega

/-- Reading back 4 bytes after a 1-byte fast write: the low byte is
`word % 256`, the rest is untouched. -/
theorem fastRead_fastWrite_one (g : ℕ → ℕ) (off w : ℕ) :
    fastRead (fastWrite g off w 1) off 4 =
      w % 256 + 256 * g (off + 1) + 65536 * g (off + 2) + 16777216 * g (off + 3) := by
  have h0 : fastWrite g off w 1 off = w % 256 := by
    simp only [fastWrite]; rw [setByte_eq]
  have h1 : fastWrite g off w 1 (off + 1) = g (off + 1) := by
    simp only [fastWrite]; rw [setByte_ne _ _ _ _ (by omega)]
  have h2 : fastWrite g off w 1 (off + 2) = g (off + 2) := by
    simp only [fastWrite]; rw [setByte_ne _ _ _ _ (by omega)]
  have h3 : fastWrite g off w 1 (off + 3) = g (off + 3) := by
    simp only [fastWrite]; rw [setByte_ne _ _ _ _ (by omega)]
  simp only [fastRead, h0, h1, h2, h3]

/-! ## Decoding each encoded-match shape -/

theorem decodeMatch_case1 (g : ℕ → ℕ) (oc : ℕ) (ho : oc < 64) :
    decodeMatch (fastWrite g 0 (oc <<< 2) 1) 0 = (⟨3, (oc : ℤ)⟩, 1) := by
  have hw : oc <<< 2 = 4 * oc := by rw [Nat.shiftLeft_eq]; ring
  have hread : fastRead (fastWrite g 0 (oc <<< 2) 1) 0 4 =
      4 * oc + 256 * g 1 + 65536 * g 2 + 16777216 * g 3 := by
    rw [fastRead_fastWrite_one, hw, Nat.mod_eq_of_lt (by omega)]
  set W := 4 * oc + 256 * g 1 + 65536 * g 2 + 16777216 * g 3 with hWdef
  have hrow : lut.getD (W &&& 7) ⟨0, 0, 0, 0, 0⟩ = ⟨0xff, 2, 0, 0, 1⟩ := by
    rw [land_7]
    rcases Nat.mod_two_eq_zero_or_one oc with hp | hp
    · have : W % 8 = 0 := by omega
      rw [this]; rfl
    · have : W % 8 = 4 := by omega
      rw [this]; rfl
  have hoff : (W &&& 255) >>> 2 = oc := by
    rw [land_255, shiftRight_div]
    have : W % 256 = 4 * oc := by omega
    rw [this]
    omega
  have hlen : (W >>> 0) &&& 0 = 0 := by
    rw [Nat.shiftRight_zero]
    exact Nat.and_zero W
  simp only [decodeMatch, hread, ← hWdef, hrow, hoff, hlen]
  norm_num [MIN_MATCH_LENGTH]

theorem decodeMatch_case2 (g : ℕ → ℕ) (oc : ℕ) (ho : oc < 16384) :
    decodeMatch (fastWrite g 0 ((oc <<< 2) ||| 1) 2) 0 = (⟨3, (oc : ℤ)⟩, 2) := by
  have hw : (oc <<< 2) ||| 1 = 4 * oc + 1 := by
    rw [lor_shiftLeft_add oc 1 2 (by norm_num)]; ring_nf
  have hread : fastRead (fastWrite g 0 ((oc <<< 2) ||| 1) 2) 0 4 =
      (4 * oc + 1) + 65536 * g 2 + 16777216 * g 3 := by
    rw [fastRead_fastWrite_two, hw, Nat.mod_eq_of_lt (by omega)]
  set W := (4 * oc + 1) + 65536 * g 2 + 16777216 * g 3 with hWdef
  have hrow : lut.getD (W &&& 7) ⟨0, 0, 0, 0, 0⟩ = ⟨0xffff, 2, 0, 0, 2⟩ := by
    rw [land_7]
    rcases Nat.mod_two_eq_zero_or_one oc with hp | hp
    · have : W % 8 = 1 := by omega
      rw [this]; rfl
    · have : W % 8 = 5 := by omega
      rw [this]; rfl
  have hoff : (W &&& 65535) >>> 2 = oc := by
    rw [land_65535, shiftRight_div]
    have : W % 65536 = 4 * oc + 1 := by omega
    rw [this]
    omega
  have hlen : (W >>> 0) &&& 0 = 0 := by
    rw [Nat.shiftRight_zero]
    exact Nat.and_zero W
  simp only [decodeMatch, hread, ← hWdef, hrow, hoff, hlen]
  norm_num [MIN_MATCH_LENGTH]

theorem decodeMatch_case3 (g : ℕ → ℕ) (oc lc : ℕ) (ho : oc < 1024) (hl : lc < 16) :
    decodeMatch (fastWrite g 0 ((oc <<< 6) ||| (lc <<< 2) ||| 2) 2) 0 =
      (⟨(lc : ℤ) + 3, (oc : ℤ)⟩, 2) := by
  have hw : (oc <<< 6) ||| (lc <<< 2) ||| 2 = 64 * oc + 4 * lc + 2 := by
    have h1 : (oc <<< 6) ||| (lc <<< 2) = 64 * oc + 4 * lc := by
      rw [Nat.shiftLeft_eq lc 2, lor_shiftLeft_add oc (lc * 2 ^ 2) 6 (by norm_num; omega)]
      ring_nf
    rw [h1, show 64 * oc + 4 * lc = (16 * oc + lc) <<< 2 by rw [Nat.shiftLeft_eq]; ring,
      lor_shiftLeft_add _ 2 2 (by norm_num), Nat.shiftLeft_eq]
  have hread : fastRead (fastWrite g 0 ((oc <<< 6) ||| (lc <<< 2) ||| 2) 2) 0 4 =
      (64 * oc + 4 * lc + 2) + 65536 * g 2 + 16777216 * g 3 := by
    rw [fastRead_fastWrite_two, hw, Nat.mod_eq_of_lt (by omega)]
  set W := (64 * oc + 4 * lc + 2) + 65536 * g 2 + 16777216 * g 3 with hWdef
  have hrow : lut.getD (W &&& 7) ⟨0, 0, 0, 0, 0⟩ = ⟨0xffff, 6, 15, 2, 2⟩ := by
    rw [land_7]
    rcases Nat.mod_two_eq_zero_or_one lc with hp | hp
    · have : W % 8 = 2 := by omega
      rw [this]; rfl
    · have : W % 8 = 6 := by omega
      rw [this]; rfl
  have hoff : (W &&& 65535) >>> 6 = oc := by
    rw [land_65535, shiftRight_div]
    have : W % 65536 = 64 * oc + 4 * lc + 2 := by omega
    rw [this]
    omega
  have hlen : (W >>> 2) &&& 15 = lc := by
    rw [shiftRight_div, land_15]
    omega
  simp only [decodeMatch, hread, ← hWdef, hrow, hoff, hlen]
  norm_num [MIN_MATCH_LENGTH]

theorem decodeMatch_case4 (g : ℕ → ℕ) (oc lc : ℕ) (ho : oc < 65536) (hl : lc < 32) :
    decodeMatch (fastWrite g 0 ((oc <<< 8) ||| (lc <<< 3) ||| 3) 3) 0 =
      (⟨(lc : ℤ) + 3, (oc : ℤ)⟩, 3) := by
  have hw : (oc <<< 8) ||| (lc <<< 3) ||| 3 = 256 * oc + 8 * lc + 3 := by
    have h1 : (oc <<< 8) ||| (lc <<< 3) = 256 * oc + 8 * lc := by
      rw [Nat.shiftLeft_eq lc 3, lor_shiftLeft_add oc (lc * 2 ^ 3) 8 (by norm_num; omega)]
      ring_nf
    rw [h1, show 256 * oc + 8 * lc = (32 * oc + lc) <<< 3 by rw [Nat.shiftLeft_eq]; ring,
      lor_shiftLeft_add _ 3 3 (by norm_num), Nat.shiftLeft_eq]
  have hread : fastRead (fastWrite g 0 ((oc <<< 8) ||| (lc <<< 3) ||| 3) 3) 0 4 =
      256 * oc + 8 * lc + 3 := by
    rw [fastRead_fastWrite_word g 0 _ 3 (Or.inl rfl), hw, Nat.mod_eq_of_lt (by omega)]
  set W := 256 * oc + 8 * lc + 3 with hWdef
  have hrow : lut.getD (W &&& 7) ⟨0, 0, 0, 0, 0⟩ = ⟨0xffffff, 8, 31, 3, 3⟩ := by
    rw [land_7]
    have : W % 8 = 3 := by omega
    rw [this]; rfl
  have hoff : (W &&& 16777215) >>> 8 = oc := by
    rw [land_16777215, shiftRight_div]
    have : W % 16777216 = W := Nat.mod_eq_of_lt (by omega)
    rw [this]
    omega
  have hlen : (W >>> 3) &&& 31 = lc := by
    rw [shiftRight_div, land_31]
    omega
  simp only [decodeMatch, hread, ← hWdef, hrow, hoff, hlen]
  norm_num [MIN_MATCH_LENGTH]

theorem decodeMatch_case5 (g : ℕ → ℕ) (oc lc : ℕ) (ho : oc < 2097152) (hl : lc < 256) :
    decodeMatch (fastWrite g 0 ((oc <<< 11) ||| (lc <<< 3) ||| 7) 4) 0 =
      (⟨(lc : ℤ) + 3, (oc : ℤ)⟩, 4) := by
  have hw : (oc <<< 11) ||| (lc <<< 3) ||| 7 = 2048 * oc + 8 * lc + 7 := by
    have h1 : (oc <<< 11) ||| (lc <<< 3) = 2048 * oc + 8 * lc := by
      rw [Nat.shiftLeft_eq lc 3, lor_shiftLeft_add oc (lc * 2 ^ 3) 11 (by norm_num; omega)]
      ring_nf
    rw [h1, show 2048 * oc + 8 * lc = (256 * oc + lc) <<< 3 by rw [Nat.shiftLeft_eq]; ring,
      lor_shiftLeft_add _ 7 3 (by norm_num), Nat.shiftLeft_eq]
  have hread : fastRead (fastWrite g 0 ((oc <<< 11) ||| (lc <<< 3) ||| 7) 4) 0 4 =
      2048 * oc + 8 * lc + 7 := by
    rw [fastRead_fastWrite_word g 0 _ 4 (Or.inr rfl), hw, Nat.mod_eq_of_lt (by omega)]
  set W := 2048 * oc + 8 * lc + 7 with hWdef
  have hrow : lut.getD (W &&& 7) ⟨0, 0, 0, 0, 0⟩ = ⟨0xffffffff, 11, 255, 3, 4⟩ := by
    rw [land_7]
    have : W % 8 = 7 := by omega
    rw [this]; rfl
  have hoff : (W &&& 4294967295) >>> 11 = oc := by
    rw [land_4294967295, shiftRight_div]
    have : W % 4294967296 = W := Nat.mod_eq_of_lt (by omega)
    rw [this]
    omega
  have hlen : (W >>> 3) &&& 255 = lc := by
    rw [shiftRight_div, land_255]
    omega
  simp only [decodeMatch, hread, ← hWdef, hrow, hoff, hlen]
  norm_num [MIN_MATCH_LENGTH]

theorem MIN_MATCH_LENGTH_eq : MIN_MATCH_LENGTH = 3 := rfl

theorem MAX_MATCH_LENGTH_eq : MAX_MATCH_LENGTH = 258 := by decide

theorem DICTIONARY_SIZE_eq : DICTIONARY_SIZE = 2097152 := by decide

/-- C2 (counterexample): at `Offset = DICTIONARY_SIZE` (with `Length = MIN_MATCH_LENGTH`),
the match satisfies the claim's bounds, yet encoding it and decoding the written bytes does
not return the original match: the 21-bit offset field overflows `uint32`, so the decoder
recovers offset 0.  This refutes the claim as stated (which allows `Offset ≤ DICTIONARY_SIZE`). -/
theorem matchCodec_claim_counterexample :
    MIN_MATCH_LENGTH ≤ (3 : ℤ) ∧ (3 : ℤ) ≤ MAX_MATCH_LENGTH ∧
    1 ≤ (2097152 : ℤ) ∧ (2097152 : ℤ) ≤ DICTIONARY_SIZE ∧
    (decodeMatch (encodeMatch ⟨3, 2097152⟩ (fun _ => 0) 0).1 0).1 ≠ (⟨3, 2097152⟩ : Match) := by
  refine ⟨by decide, by decide, by decide, by decide, ?_⟩
  decide

/-- C2 (amended, confirmed): for every match `m` with
`MIN_MATCH_LENGTH ≤ m.Length ≤ MAX_MATCH_LENGTH` and `1 ≤ m.Offset ≤ DICTIONARY_SIZE - 1`,
writing `encodeMatch m` into any buffer (of which the decoder may read 4 bytes) and running
`decodeMatch` on the result returns exactly `m`, and the size reported by `decodeMatch`
equals the size returned by `encodeMatch`/`getMatchCodedSize`. -/
theorem decodeMatch_encodeMatch_roundTrip (m : Match) (g : ℕ → ℕ)
    (h1 : MIN_MATCH_LENGTH ≤ m.Length) (h2 : m.Length ≤ MAX_MATCH_LENGTH)
    (h3 : 1 ≤ m.Offset) (h4 : m.Offset ≤ DICTIONARY_SIZE - 1) :
    decodeMatch (encodeMatch m g 0).1 0 = (m, (encodeMatch m g 0).2) ∧
    ((encodeMatch m g 0).2 : ℤ) = getMatchCodedSize m := by
  rw [MIN_MATCH_LENGTH_eq] at h1
  rw [MAX_MATCH_LENGTH_eq] at h2
  rw [DICTIONARY_SIZE_eq] at h4
  obtain ⟨L, O⟩ := m
  dsimp only at h1 h2 h3 h4 ⊢
  have hlcz : ((L - 3).toNat : ℤ) = L - 3 := Int.toNat_of_nonneg (by omega)
  have hocz : (O.toNat : ℤ) = O := Int.toNat_of_nonneg (by omega)
  set lc := (L - 3).toNat with hlc
  set oc := O.toNat with hoc
  have hlcb : lc ≤ 255 := by omega
  have hoc1 : 1 ≤ oc := by omega
  have hocb : oc ≤ 2097151 := by omega
  have e1 : uintCast ((Match.mk L O).Length - MIN_MATCH_LENGTH) = lc := by
    simp only [uintCast, MIN_MATCH_LENGTH, hlc]
    omega
  have e2 : uintCast (Match.mk L O).Offset = oc := by
    simp only [uintCast, hoc]
    omega
  simp only [encodeMatch, encodeMatchWordSize, e1, e2, getMatchCodedSize]
  by_cases c1 : lc = 0 ∧ oc < 64
  · simp only [if_pos c1]
    have hm : (⟨3, (oc : ℤ)⟩ : Match) = ⟨L, O⟩ := by
      simp only [Match.mk.injEq]
      exact ⟨by omega, by omega⟩
    rw [decodeMatch_case1 g oc c1.2, hm]
    trivial
  · simp only [if_neg c1]
    by_cases c2 : lc = 0 ∧ oc < 16384
    · simp only [if_pos c2]
      have hm : (⟨3, (oc : ℤ)⟩ : Match) = ⟨L, O⟩ := by
        simp only [Match.mk.injEq]
        exact ⟨by omega, by omega⟩
      rw [decodeMatch_case2 g oc c2.2, hm]
      trivial
    · simp only [if_neg c2]
      have hm : (⟨(lc : ℤ) + 3, (oc : ℤ)⟩ : Match) = ⟨L, O⟩ := by
        simp only [Match.mk.injEq]
        exact ⟨by omega, by omega⟩
      by_cases c3 : lc < 16 ∧ oc < 1024
      · simp only [if_pos c3]
        rw [decodeMatch_case3 g oc lc c3.2 c3.1, hm]
        trivial
      · simp only [if_neg c3]
        by_cases c4 : lc < 32 ∧ oc < 65536
        · simp only [if_pos c4]
          rw [decodeMatch_case4 g oc lc c4.2 c4.1, hm]
          trivial
        · simp only [if_neg c4]
          rw [decodeMatch_case5 g oc lc (by omega) (by omega), hm]
          trivial

/-- Witness for `decodeMatch_encodeMatch_roundTrip` at the concrete match (5, 700)
written over a buffer of junk bytes 9. -/
theorem decodeMatch_encodeMatch_roundTrip_witness :
    (MIN_MATCH_LENGTH ≤ (5 : ℤ) ∧ (5 : ℤ) ≤ MAX_MATCH_LENGTH ∧
     1 ≤ (700 : ℤ) ∧ (700 : ℤ) ≤ DICTIONARY_SIZE - 1) ∧
    (decodeMatch (encodeMatch ⟨5, 700⟩ (fun _ => 9) 0).1 0 =
      (⟨5, 700⟩, (encodeMatch ⟨5, 700⟩ (fun _ => 9) 0).2) ∧
     ((encodeMatch ⟨5, 700⟩ (fun _ => 9) 0).2 : ℤ) = getMatchCodedSize ⟨5, 700⟩) :=
  ⟨⟨by decide, by decide, by decide, by decide⟩,
   decodeMatch_encodeMatch_roundTrip ⟨5, 700⟩ (fun _ => 9)
     (by decide) (by decide) (by decide) (by decide)⟩

/-- C7 (confirmed): applied to a candidate list sorted by strictly ascending length,
`getBestMatch` returns the first candidate whose length strictly exceeds its own coded
size, and the zero match (length 0) if none qualifies. -/
theorem getBestMatch_first_profitable (l : List Match)
    (hsorted : List.Pairwise (fun a b => a.Length < b.Length) l) :
    getBestMatch l = (l.find? (fun c => decide (getMatchCodedSize c < c.Length))).getD ⟨0, 0⟩ := by
  induction l with
  | nil => rfl
  | cons c rest ih =>
      simp only [getBestMatch, List.find?]
      by_cases h : getMatchCodedSize c < c.Length
      · simp [h]
      · simp only [gt_iff_lt, if_neg h, decide_eq_true_eq]
        rw [ih (List.Pairwise.of_cons hsorted)]
        simp [h]

/-- Witness for `getBestMatch_first_profitable` on a concrete two-candidate list:
the first candidate (3, 5) codes in 1 byte, so it is profitable and is returned. -/
theorem getBestMatch_first_profitable_witness :
    List.Pairwise (fun a b : Match => a.Length < b.Length) [⟨3, 5⟩, ⟨7, 90000⟩] ∧
    getBestMatch [⟨3, 5⟩, ⟨7, 90000⟩] =
      (([⟨3, 5⟩, ⟨7, 90000⟩] : List Match).find?
        (fun c => decide (getMatchCodedSize c < c.Length))).getD ⟨0, 0⟩ :=
  ⟨by decide, getBestMatch_first_profitable _ (by decide)⟩

/-! ## Header codec

`getSizeCodedSize`/`getHeaderSize`/`GetMaxCompressedSize`/`encodeHeader`
come from compressor.go, `decodeHeader` from decompressor.go.  In the
source the branches for `size <= MaxUint` (returning 4) and the final
`return 8` are commented out, so the selector saturates at 4. -/

def getSizeCodedSize (size : ℤ) : ℤ :=
  if size ≤ 255 then 1
  else if size ≤ 65535 then 2
  else 4

def getHeaderSize (maxCompressedSize : ℤ) : ℤ :=
  1 + 2 * getSizeCodedSize maxCompressedSize

def GetMaxCompressedSize (size : ℤ) : ℤ :=
  getHeaderSize MaxInt + size

/-- Little-endian write of `n` bytes of `v` at `off` (binary.LittleEndian.PutUintNN). -/
def writeLE (d : ℕ → ℕ) (off v : ℕ) : ℕ → (ℕ → ℕ)
  | 0 => d
  | n + 1 => writeLE (setByte d off (v % 256)) (off + 1) (v / 256) n

/-- Little-endian read of `n` bytes at `off` (binary.LittleEndian.UintNN). -/
def readLE (l : List ℕ) (off : ℕ) : ℕ → ℕ
  | 0 => 0
  | n + 1 => l.getD off 0 + 256 * readLE l (off + 1) n

/-- `Compressor.encodeHeader`: writes the attribute byte at offset 0 and the
two size fields (little-endian, `sizeCodedSize` bytes each) after it. -/
def encodeHeader (header : Header) (maxCompressedSize : ℤ) (dest : ℕ → ℕ) : ℕ → ℕ :=
  let attributes0 := uintCast header.Version
  let sizeCodedSize := uintCast (getSizeCodedSize maxCompressedSize)
  let attributes1 := attributes0 ||| ((sizeCodedSize - 1) <<< 3)
  let attributes := if header.IsStored then attributes1 ||| 128 else attributes1
  let d0 := setByte dest 0 (attributes % 256)
  if sizeCodedSize = 1 then
    writeLE (writeLE d0 1 header.UncompressedSize 1) 2 header.CompressedSize 1
  else if sizeCodedSize = 2 then
    writeLE (writeLE d0 1 header.UncompressedSize 2) 3 header.CompressedSize 2
  else if sizeCodedSize = 4 then
    writeLE (writeLE d0 1 header.UncompressedSize 4) 5 header.CompressedSize 4
  else if sizeCodedSize = 8 then
    writeLE (writeLE d0 1 header.UncompressedSize 8) 9 header.CompressedSize 8
  else d0

/-- `Decompressor.decodeHeader`.  Note that after consuming the attribute
byte the source compares the length of the already-sliced buffer against the
full `headerSize` (which still counts the attribute byte). -/
def decodeHeader (source : List ℕ) : Result × Header × ℤ :=
  if source.length < 1 then (RESULT_ERROR_BUFFER_TOO_SMALL, Header.zero, 0)
  else
    let attributes := source.getD 0 0
    let source' := source.drop 1
    let version : ℤ := ((attributes &&& 7 : ℕ) : ℤ)
    let sizeCodedSize : ℤ := (((attributes >>> 3) &&& 7 : ℕ) : ℤ) + 1
    let headerSize : ℤ := 1 + 2 * sizeCodedSize
    if (source'.length : ℤ) < headerSize then
      (RESULT_ERROR_BUFFER_TOO_SMALL, { Header.zero with Version := version }, headerSize)
    else
      let isStored := (attributes &&& 128) ≠ 0
      let s := sizeCodedSize.toNat
      if sizeCodedSize = 1 ∨ sizeCodedSize = 2 ∨ sizeCodedSize = 4 ∨ sizeCodedSize = 8 then
        (RESULT_OK,
         { UncompressedSize := readLE source' 0 s,
           CompressedSize := readLE source' s s,
           Version := version, IsStored := isStored }, headerSize)
      else
        (RESULT_ERROR_CORRUPTED_DATA,
         { Header.zero with Version := version, IsStored := isStored }, headerSize)

structure CompressionInfo where
  UncompressedSize : ℕ
  CompressedSize : ℕ
  Version : ℤ
deriving DecidableEq, Repr

/-- `Decompressor.GetCompressionInfo`. -/
def GetCompressionInfo (source : List ℕ) : Result × CompressionInfo :=
  let r := decodeHeader source
  if r.1 ≠ RESULT_OK then (r.1, ⟨0, 0, 0⟩)
  else (RESULT_OK, ⟨r.2.1.UncompressedSize, r.2.1.CompressedSize, r.2.1.Version⟩)

/-! ## Decompressor driver (decompressor.go `Decompress`) -/

def literalRunLengthTable : List ℤ := [4, 0, 1, 0, 2, 0, 1, 0, 3, 0, 1, 0, 2, 0, 1, 0]

/-- View a byte list as a total byte buffer (out-of-range reads return 0). -/
def srcF (source : List ℕ) : ℕ → ℕ := fun i => source.getD i 0

structure DecompState where
  inputIterator : ℤ
  outputIterator : ℤ
  controlWord : ℕ
  dest : ℕ → ℕ

/-- The three byte-by-byte copies performed when `match.Offset < WORD_SIZE`. -/
def overlapPre (dest : ℕ → ℕ) (outIt matchStr : ℤ) : ℕ → ℕ :=
  let d0 := fastWrite dest (outIt + 0).toNat (fastRead dest (matchStr + 0).toNat 1) 1
  let d1 := fastWrite d0 (outIt + 1).toNat (fastRead d0 (matchStr + 1).toNat 1) 1
  fastWrite d1 (outIt + 2).toNat (fastRead d1 (matchStr + 2).toNat 1) 1

/-- The word-at-a-time do-while copy of a match.  The fuel bounds the
iteration count; `matchLength.toNat + 4` always suffices since `i` grows by
4 per step. -/
def matchCopyLoop (outIt matchStr matchLength : ℤ) : ℕ → (ℕ → ℕ) → ℤ → (ℕ → ℕ)
  | 0, dest, _ => dest
  | fuel + 1, dest, i =>
      let dest' := fastWrite dest (outIt + i).toNat (fastRead dest (matchStr + i).toNat 4) 4
      let i' := i + 4
      if i' < matchLength then matchCopyLoop outIt matchStr matchLength fuel dest' i' else dest'

/-- The literal tail loop (`for outputIterator < outputEnd`).  The fuel is
exactly `(outputEnd - outputIterator).toNat`, so `fuel = 0` coincides with
the loop condition being false, at which point the source returns OK. -/
def tailLoop (source : List ℕ) (inputEnd : ℤ) : ℕ → DecompState → Result × (ℕ → ℕ)
  | 0, st => (RESULT_OK, st.dest)
  | fuel + 1, st =>
      if st.inputIterator + WORD_SIZE + 1 > inputEnd then (RESULT_ERROR_CORRUPTED_DATA, st.dest)
      else
        let st1 := if st.controlWord = 1 then
            { st with controlWord := fastRead (srcF source) st.inputIterator.toNat 4,
                      inputIterator := st.inputIterator + WORD_SIZE }
          else st
        let dest' := setByte st1.dest st1.outputIterator.toNat (source.getD st1.inputIterator.toNat 0)
        tailLoop source inputEnd fuel
          { inputIterator := st1.inputIterator + 1, outputIterator := st1.outputIterator + 1,
            controlWord := st1.controlWord >>> 1, dest := dest' }

/-- The main decoding loop of `Decompress`.  One output byte is produced per
iteration at minimum, so fuel `uncompressedSize + 2` suffices; running out of
fuel (unreachable) is reported as corrupted data. -/
def decodeLoop (source : List ℕ) (inputEnd outputEnd outputTail : ℤ) :
    ℕ → DecompState → Result × (ℕ → ℕ)
  | 0, st => (RESULT_ERROR_CORRUPTED_DATA, st.dest)
  | fuel + 1, st =>
      if st.inputIterator + 2 * WORD_SIZE > inputEnd then (RESULT_ERROR_CORRUPTED_DATA, st.dest)
      else
        let st1 := if st.controlWord = 1 then
            { st with controlWord := fastRead (srcF source) st.inputIterator.toNat 4,
                      inputIterator := st.inputIterator + WORD_SIZE }
          else st
        if st1.controlWord &&& 1 = 0 then
          -- literal
          if st1.outputIterator < outputTail then
            let dest' := fastWrite st1.dest st1.outputIterator.toNat
              (fastRead (srcF source) st1.inputIterator.toNat 4) 4
            let runLength := literalRunLengthTable.getD (st1.controlWord &&& 15) 0
            decodeLoop source inputEnd outputEnd outputTail fuel
              { inputIterator := st1.inputIterator + runLength,
                outputIterator := st1.outputIterator + runLength,
                controlWord := st1.controlWord >>> runLength.toNat, dest := dest' }
          else
            tailLoop source inputEnd (outputEnd - st1.outputIterator).toNat st1
        else
          -- match
          let md := decodeMatch (srcF source) st1.inputIterator.toNat
          let mt := md.1
          let inputIterator2 := st1.inputIterator + md.2
          let matchString := st1.outputIterator - mt.Offset
          if matchString < 0 ∨ st1.outputIterator + mt.Length > outputTail then
            (RESULT_ERROR_CORRUPTED_DATA, st1.dest)
          else
            let pre := mt.Offset < WORD_SIZE
            let dest1 := if pre then overlapPre st1.dest st1.outputIterator matchString else st1.dest
            -- matchString -= 2 + (match.Offset & 1); the offset is nonnegative
            let matchString1 := if pre then matchString - (2 + mt.Offset % 2) else matchString
            let i0 : ℤ := if pre then 3 else 0
            let dest2 := matchCopyLoop st1.outputIterator matchString1 mt.Length
              (mt.Length.toNat + 4) dest1 i0
            decodeLoop source inputEnd outputEnd outputTail fuel
              { inputIterator := inputIterator2,
                outputIterator := st1.outputIterator + mt.Length,
                controlWord := st1.controlWord >>> 1, dest := dest2 }

/-- `Decompressor.Decompress`: the destination buffer is a total function
plus its length; the result and the final buffer contents are returned. -/
def Decompress (source : List ℕ) (destLen : ℕ) (dest : ℕ → ℕ) : Result × (ℕ → ℕ) :=
  let r := decodeHeader source
  if r.1 ≠ RESULT_OK then (r.1, dest)
  else
    let header := r.2.1
    let inputIterator : ℤ := r.2.2
    if header.Version ≠ VERSION then (RESULT_ERROR_UNSUPPORTED_VERSION, dest)
    else if source.length < header.CompressedSize ∨ destLen < header.UncompressedSize then
      (RESULT_ERROR_BUFFER_TOO_SMALL, dest)
    else
      let uncompressedSize := header.UncompressedSize
      if header.IsStored then
        let copyLen := min uncompressedSize (source.length - inputIterator.toNat)
        (RESULT_OK, fun j => if j < copyLen then source.getD (inputIterator.toNat + j) 0 else dest j)
      else
        let inputEnd : ℤ := header.CompressedSize
        let outputEnd : ℤ := uncompressedSize
        let outputTail : ℤ := if (uncompressedSize : ℤ) > TAIL_LENGTH then outputEnd - TAIL_LENGTH else 0
        decodeLoop source inputEnd outputEnd outputTail (uncompressedSize + 2)
          ⟨inputIterator, 0, 1, dest⟩

/-! ## Header codec claims -/

theorem getHeaderSize_MaxInt : getHeaderSize MaxInt = 9 := by decide

theorem writeLE_lt (n : ℕ) (d : ℕ → ℕ) (off v j : ℕ) (h : j < off) :
    writeLE d off v n j = d j := by
  induction n generalizing d off v with
  | zero => rfl
  | succ k ih =>
      simp only [writeLE]
      rw [ih _ _ _ (by omega), setByte_ne _ _ _ _ (by omega)]

theorem encodeHeader_byte0 (h : Header) (m : ℤ) (dest : ℕ → ℕ) :
    encodeHeader h m dest 0 =
      (if h.IsStored then
        (uintCast h.Version ||| ((uintCast (getSizeCodedSize m) - 1) <<< 3)) ||| 128
       else uintCast h.Version ||| ((uintCast (getSizeCodedSize m) - 1) <<< 3)) % 256 := by
  simp only [encodeHeader]
  split_ifs <;> rfl

/-- C4 (code bug): a buffer of exactly `headerSize` bytes is rejected with
BufferTooSmall.  `[0, 42, 99]` has attribute byte 0, hence sizeCodedSize 1 and
headerSize 3; the decoder only ever reads bytes 0..2, yet after slicing off
the attribute byte it compares the remaining length (2) against the full
headerSize (3) and reports BufferTooSmall. -/
theorem decodeHeader_bufferTooSmall_at_exact_headerSize :
    decodeHeader [0, 42, 99] = (RESULT_ERROR_BUFFER_TOO_SMALL, Header.zero, 3) ∧
    ([0, 42, 99] : List ℕ).length = 3 := by decide

/-- C5 (confirmed): `getSizeCodedSize` is 1 for sizes up to 255, 2 up to 65535
and 4 otherwise; it never returns 8; and the size-class field of the attribute
byte written by `encodeHeader` for a compressor header (version `VERSION`,
`maxCompressedSize = GetMaxCompressedSize n`) is always 1, 2 or 4. -/
theorem getSizeCodedSize_spec (n : ℕ) :
    (getSizeCodedSize (n : ℤ) = if (n : ℤ) ≤ 255 then 1 else if (n : ℤ) ≤ 65535 then 2 else 4) ∧
    getSizeCodedSize (n : ℤ) ≠ 8 ∧
    ∀ (u c : ℕ) (stored : Bool) (dest : ℕ → ℕ),
      (((encodeHeader ⟨u, c, VERSION, stored⟩ (GetMaxCompressedSize (n : ℤ)) dest 0) >>> 3) &&& 7) + 1 = 1 ∨
      (((encodeHeader ⟨u, c, VERSION, stored⟩ (GetMaxCompressedSize (n : ℤ)) dest 0) >>> 3) &&& 7) + 1 = 2 ∨
      (((encodeHeader ⟨u, c, VERSION, stored⟩ (GetMaxCompressedSize (n : ℤ)) dest 0) >>> 3) &&& 7) + 1 = 4 := by
  refine ⟨rfl, ?_, ?_⟩
  · simp only [getSizeCodedSize]
    split_ifs <;> norm_num
  · intro u c stored dest
    have hval : getSizeCodedSize (GetMaxCompressedSize (n : ℤ)) = 1 ∨
        getSizeCodedSize (GetMaxCompressedSize (n : ℤ)) = 2 ∨
        getSizeCodedSize (GetMaxCompressedSize (n : ℤ)) = 4 := by
      simp only [getSizeCodedSize]
      split_ifs <;> tauto
    rw [encodeHeader_byte0]
    rcases hval with hv | hv | hv <;> rw [hv] <;> cases stored <;> simp only [Bool.false_eq_true,
      if_false, if_true] <;> decide

/-- C6 (counterexample): the claim quantifies over every source whose first
byte encodes sizeCodedSize ∈ {3,5,6,7}, but a 1-byte source `[16]`
(sizeCodedSize 3) fails the header length check first, so both entry points
return BufferTooSmall, not CorruptedData. -/
theorem badSizeCodedSize_claim_counterexample :
    ((([16] : List ℕ).getD 0 0 >>> 3) &&& 7) + 1 = 3 ∧
    (GetCompressionInfo [16]).1 = RESULT_ERROR_BUFFER_TOO_SMALL ∧
    (Decompress [16] 0 (fun _ => 0)).1 = RESULT_ERROR_BUFFER_TOO_SMALL ∧
    RESULT_ERROR_BUFFER_TOO_SMALL ≠ RESULT_ERROR_CORRUPTED_DATA := by
  refine ⟨by decide, by decide, ?_, by decide⟩
  decide

/-- C6 (amended, confirmed): for every source buffer long enough to pass the
header length check (at least `headerSize + 1 = 2 + 2*sizeCodedSize` bytes)
whose first byte encodes sizeCodedSize ∈ {3,5,6,7}, both `Decompress` and
`GetCompressionInfo` return CorruptedData. -/
theorem decompress_corruptedData_of_bad_sizeCodedSize (source : List ℕ) (s : ℕ)
    (hs : s = ((source.getD 0 0 >>> 3) &&& 7) + 1)
    (hbad : s = 3 ∨ s = 5 ∨ s = 6 ∨ s = 7)
    (hlen : 2 + 2 * s ≤ source.length) :
    (GetCompressionInfo source).1 = RESULT_ERROR_CORRUPTED_DATA ∧
    ∀ (destLen : ℕ) (dest : ℕ → ℕ),
      (Decompress source destLen dest).1 = RESULT_ERROR_CORRUPTED_DATA := by
  subst hs
  have hdec : (decodeHeader source).1 = RESULT_ERROR_CORRUPTED_DATA := by
    simp only [decodeHeader]
    rw [if_neg (by omega), if_neg (by rw [List.length_drop]; omega), if_neg (by omega)]
  constructor
  · simp [GetCompressionInfo, hdec]
  · intro destLen dest
    simp [Decompress, hdec]

/-- Witness for `decompress_corruptedData_of_bad_sizeCodedSize` at the 8-byte
source `[16,0,0,0,0,0,0,0]` (sizeCodedSize 3, headerSize 7). -/
theorem decompress_corruptedData_of_bad_sizeCodedSize_witness :
    ((3 : ℕ) = ((([16, 0, 0, 0, 0, 0, 0, 0] : List ℕ).getD 0 0 >>> 3) &&& 7) + 1 ∧
     2 + 2 * 3 ≤ ([16, 0, 0, 0, 0, 0, 0, 0] : List ℕ).length) ∧
    (GetCompressionInfo [16, 0, 0, 0, 0, 0, 0, 0]).1 = RESULT_ERROR_CORRUPTED_DATA ∧
    (Decompress [16, 0, 0, 0, 0, 0, 0, 0] 5 (fun _ => 0)).1 = RESULT_ERROR_CORRUPTED_DATA :=
  ⟨⟨by decide, by decide⟩,
   (decompress_corruptedData_of_bad_sizeCodedSize _ 3 (by decide) (by decide) (by decide)).1,
   (decompress_corruptedData_of_bad_sizeCodedSize _ 3 (by decide) (by decide) (by decide)).2
     5 (fun _ => 0)⟩

/-- C10 (confirmed): `GetCompressionInfo` performs no version validation: as
soon as the header decodes, it returns RESULT_OK and the header's fields,
whatever the version; `Decompress` instead rejects any nonzero version with
UnsupportedVersion (before any buffer-size check). -/
theorem getCompressionInfo_no_version_check (source : List ℕ) (h : Header) (hsz : ℤ)
    (hdec : decodeHeader source = (RESULT_OK, h, hsz)) :
    GetCompressionInfo source = (RESULT_OK, ⟨h.UncompressedSize, h.CompressedSize, h.Version⟩) ∧
    (h.Version ≠ 0 → ∀ (destLen : ℕ) (dest : ℕ → ℕ),
      (Decompress source destLen dest).1 = RESULT_ERROR_UNSUPPORTED_VERSION) := by
  constructor
  · simp [GetCompressionInfo, hdec]
  · intro hv destLen dest
    simp [Decompress, hdec, VERSION, hv]

/-- Witness for `getCompressionInfo_no_version_check` at the source
`[3, 5, 7, 9]`, whose header has version 3. -/
theorem getCompressionInfo_no_version_check_witness :
    decodeHeader [3, 5, 7, 9] = (RESULT_OK, ⟨5, 7, 3, false⟩, 3) ∧
    GetCompressionInfo [3, 5, 7, 9] = (RESULT_OK, ⟨5, 7, 3⟩) ∧
    (Decompress [3, 5, 7, 9] 9 (fun _ => 1)).1 = RESULT_ERROR_UNSUPPORTED_VERSION :=
  ⟨by decide,
   (getCompressionInfo_no_version_check [3, 5, 7, 9] ⟨5, 7, 3, false⟩ 3 (by decide)).1,
   (getCompressionInfo_no_version_check [3, 5, 7, 9] ⟨5, 7, 3, false⟩ 3 (by decide)).2
     (by decide) 9 (fun _ => 1)⟩

/-! ## Dictionary / match finder (dictionary.go)

Positions are Go `int`s, modelled as `ℤ` (INVALID_POSITION = -1).  The two
index arrays are total functions `ℕ → ℤ`; Go's `make` zero-fills them, and
`SetBuffer` re-initialises only `hashTable`.  The input buffer is a total
function `ℤ → ℕ` plus its length. -/

structure Dictionary where
  bufLen : ℕ
  buf : ℤ → ℕ
  bufferBase : ℤ
  matchableBufferLength : ℤ
  absolutePosition : ℤ
  hashTable : ℕ → ℤ
  children : ℕ → ℤ

def updZ (f : ℕ → ℤ) (i : ℕ) (v : ℤ) : ℕ → ℤ := fun j => if j = i then v else f j

/-- `Dictionary.hash`: FNV-1a over the 3 bytes at `pos`, with 64-bit wrap. -/
def hashFNV (data : ℤ → ℕ) (pos : ℤ) : ℕ :=
  let prime := 16777619
  let r0 : ℕ := 2166136261
  let r1 := (r0 ^^^ data pos) * prime % 2 ^ 64
  let r2 := (r1 ^^^ data (pos + 1)) * prime % 2 ^ 64
  (r2 ^^^ data (pos + 2)) * prime % 2 ^ 64

/-- A dictionary as produced by `initialize`: both arrays zero-filled by
Go's `make`. -/
def freshDictionary : Dictionary :=
  ⟨0, fun _ => 0, 0, 0, 0, fun _ => 0, fun _ => 0⟩

/-- `Dictionary.SetBuffer`: installs the buffer, resets the positions,
recomputes `matchableBufferLength` and clears the hash table (the `children`
array is left as is). -/
def SetBuffer (d : Dictionary) (f : ℤ → ℕ) (n : ℕ) : Dictionary :=
  { bufLen := n, buf := f, absolutePosition := 0, bufferBase := 0,
    matchableBufferLength :=
      if (n : ℤ) > TAIL_LENGTH + MIN_MATCH_LENGTH then (n : ℤ) - (TAIL_LENGTH + MIN_MATCH_LENGTH)
      else 0,
    hashTable := fun _ => INVALID_POSITION,
    children := d.children }

/-- `Dictionary.computeRelativePosition`: returns the relative position and
rebases the stored positions when it reaches REBASE_THRESHOLD. -/
def computeRelativePosition (d : Dictionary) : ℤ × Dictionary :=
  let position := d.absolutePosition - d.bufferBase
  if position = REBASE_THRESHOLD then
    let rebaseDelta := REBASE_THRESHOLD - DICTIONARY_SIZE
    (position - rebaseDelta,
     { d with bufferBase := d.bufferBase + rebaseDelta,
              hashTable := fun i =>
                if d.hashTable i ≥ rebaseDelta then d.hashTable i - rebaseDelta
                else INVALID_POSITION,
              children := fun i =>
                if d.children i ≥ rebaseDelta then d.children i - rebaseDelta
                else INVALID_POSITION })
  else (position, d)

/-- Cyclic position in the dictionary (`position % DICTIONARY_SIZE`). -/
def cyclic (p : ℤ) : ℕ := (p % DICTIONARY_SIZE).toNat

/-- The match-extension loop
`for matchLength < maxMatchLength && buffer[i+matchLength] == buffer[j+matchLength]`;
the fuel is `(maxMatchLength - matchLength).toNat`, so `fuel = 0` coincides
with the length bound being reached. -/
def matchExtend (f : ℤ → ℕ) (i j : ℤ) : ℕ → ℤ → ℤ
  | 0, ml => ml
  | fuel + 1, ml => if f (i + ml) = f (j + ml) then matchExtend f i j fuel (ml + 1) else ml

structure FindState where
  matchPosition : ℤ
  leftSubtreeLeaf : ℕ
  rightSubtreeLeaf : ℕ
  lowMatchLength : ℤ
  highMatchLength : ℤ
  longestMatchLength : ℤ
  matchCandidates : List Match
  children : ℕ → ℤ

/-- The candidate/BST loop of `FindMatches`.  `matchCount` reaching
MAX_MATCH_CANDIDATE_COUNT is mirrored by the fuel reaching 0 (the fuel is
`MAX_MATCH_CANDIDATE_COUNT - matchCount`).  `record` is true when the Go
caller passes a non-nil candidate array. -/
def findLoop (f : ℤ → ℕ) (base position minMatchPosition maxMatchLength : ℤ) (record : Bool) :
    ℕ → FindState → FindState
  | 0, st =>
      let ch := updZ (updZ st.children st.leftSubtreeLeaf INVALID_POSITION) st.rightSubtreeLeaf INVALID_POSITION
      { st with children := ch }
  | fuel + 1, st =>
      if st.matchPosition < minMatchPosition then
        let ch := updZ (updZ st.children st.leftSubtreeLeaf INVALID_POSITION) st.rightSubtreeLeaf INVALID_POSITION
        { st with children := ch }
      else
        let cyclicMatchPosition := cyclic st.matchPosition
        let ml0 := min st.lowMatchLength st.highMatchLength
        let matchLength :=
          matchExtend f (base + position) (base + st.matchPosition) (maxMatchLength - ml0).toNat ml0
        let matchOffset := position - st.matchPosition
        let hit := matchLength > st.longestMatchLength ∧ matchLength ≥ MIN_MATCH_LENGTH
        let cands :=
          if hit ∧ record then st.matchCandidates ++ [⟨matchLength, matchOffset⟩]
          else st.matchCandidates
        let longest := if hit then matchLength else st.longestMatchLength
        if hit ∧ matchLength = maxMatchLength then
          -- the current string is already in the tree: splice out the node and break
          let ch1 := updZ st.children st.leftSubtreeLeaf (st.children (cyclicMatchPosition * 2))
          let ch2 := updZ ch1 st.rightSubtreeLeaf (ch1 (cyclicMatchPosition * 2 + 1))
          { st with matchCandidates := cands, longestMatchLength := longest, children := ch2 }
        else if f (base + position + matchLength) < f (base + st.matchPosition + matchLength) then
          -- insert into the right subtree, go left
          let ch1 := updZ st.children st.rightSubtreeLeaf st.matchPosition
          let rl := cyclicMatchPosition * 2
          findLoop f base position minMatchPosition maxMatchLength record fuel
            { matchPosition := ch1 rl, leftSubtreeLeaf := st.leftSubtreeLeaf,
              rightSubtreeLeaf := rl, lowMatchLength := st.lowMatchLength,
              highMatchLength := matchLength, longestMatchLength := longest,
              matchCandidates := cands, children := ch1 }
        else
          -- insert into the left subtree, go right
          let ch1 := updZ st.children st.leftSubtreeLeaf st.matchPosition
          let ll := cyclicMatchPosition * 2 + 1
          findLoop f base position minMatchPosition maxMatchLength record fuel
            { matchPosition := ch1 ll, leftSubtreeLeaf := ll,
              rightSubtreeLeaf := st.rightSubtreeLeaf, lowMatchLength := matchLength,
              highMatchLength := st.highMatchLength, longestMatchLength := longest,
              matchCandidates := cands, children := ch1 }

/-- `Dictionary.FindMatches`; returns the recorded candidates and the new
dictionary state. -/
def FindMatches (d : Dictionary) (record : Bool) : List Match × Dictionary :=
  if d.absolutePosition ≥ d.matchableBufferLength then
    ([], { d with absolutePosition := d.absolutePosition + 1 })
  else
    let maxMatchLength := min ((d.bufLen : ℤ) - TAIL_LENGTH - d.absolutePosition) MAX_MATCH_LENGTH
    let pr := computeRelativePosition d
    let position := pr.1
    let d1 := pr.2
    let minMatchPosition := if position ≥ DICTIONARY_SIZE then position - DICTIONARY_SIZE + 1 else 0
    let hashValue := hashFNV d1.buf (d1.bufferBase + position) % HASH_TABLE_SIZE
    let matchPosition := d1.hashTable hashValue
    let hashTable1 := updZ d1.hashTable hashValue position
    let cyclicInputPosition := cyclic position
    let st := findLoop d1.buf d1.bufferBase position minMatchPosition maxMatchLength record
      MAX_MATCH_CANDIDATE_COUNT
      ⟨matchPosition, cyclicInputPosition * 2, cyclicInputPosition * 2 + 1, 0, 0, 0, [],
        d1.children⟩
    (st.matchCandidates,
     { d1 with hashTable := hashTable1, children := st.children,
               absolutePosition := d1.absolutePosition + 1 })

/-- `Dictionary.Skip`: `FindMatches(nil)`, discarding the candidates. -/
def Skip (d : Dictionary) : Dictionary := (FindMatches d false).2

/-- `Dictionary.Position`. -/
def Position (d : Dictionary) : ℤ := d.absolutePosition

/-- A dictionary state reachable by `SetBuffer` on a fresh dictionary
followed by any sequence of `FindMatches`/`Skip` calls (`true` entries are
`FindMatches` with a non-nil output, `false` entries are `Skip`). -/
def runCalls (f : ℤ → ℕ) (n : ℕ) : List Bool → Dictionary
  | [] => SetBuffer freshDictionary f n
  | r :: rest => (FindMatches (runCalls f n rest) r).2

/-! ## Dictionary invariants -/

/-- A stored position is INVALID or lies in `[0, position - 1]`. -/
def ChOK (position v : ℤ) : Prop := v = INVALID_POSITION ∨ (0 ≤ v ∧ v ≤ position - 1)

/-- Bounds of a candidate recorded at relative position `position` with
minimum match position `minMatch`. -/
def CandOK (position minMatch maxML : ℤ) (m : Match) : Prop :=
  MIN_MATCH_LENGTH ≤ m.Length ∧ m.Length ≤ maxML ∧
  1 ≤ m.Offset ∧ m.Offset ≤ position - minMatch

theorem matchExtend_ge (f : ℤ → ℕ) (i j : ℤ) :
    ∀ (fuel : ℕ) (ml : ℤ), ml ≤ matchExtend f i j fuel ml := by
  intro fuel
  induction fuel with
  | zero => intro ml; simp [matchExtend]
  | succ k ih =>
      intro ml
      simp only [matchExtend]
      split_ifs
      · exact le_trans (by omega) (ih (ml + 1))
      · exact le_refl ml

theorem matchExtend_le (f : ℤ → ℕ) (i j : ℤ) :
    ∀ (fuel : ℕ) (ml : ℤ), matchExtend f i j fuel ml ≤ ml + (fuel : ℤ) := by
  intro fuel
  induction fuel with
  | zero => intro ml; simp [matchExtend]
  | succ k ih =>
      intro ml
      simp only [matchExtend]
      split_ifs
      · exact le_trans (ih (ml + 1)) (by push_cast; omega)
      · omega

/-- The central loop invariant of `findLoop`: if every stored child position
and the current match position are INVALID or in `[0, position - 1]`, then so
is every child position afterwards, and the recorded candidates have strictly
increasing lengths with all bounds of `CandOK`. -/
theorem findLoop_inv (f : ℤ → ℕ) (base position minMatch maxML : ℤ) (record : Bool)
    (hmin0 : 0 ≤ minMatch) :
    ∀ (fuel : ℕ) (st : FindState),
      (∀ i, ChOK position (st.children i)) →
      ChOK position st.matchPosition →
      0 ≤ st.lowMatchLength → st.lowMatchLength ≤ maxML →
      0 ≤ st.highMatchLength → st.highMatchLength ≤ maxML →
      0 ≤ st.longestMatchLength →
      List.Pairwise (fun a b => a.Length < b.Length) st.matchCandidates →
      (∀ m ∈ st.matchCandidates,
        m.Length ≤ st.longestMatchLength ∧ CandOK position minMatch maxML m) →
      (∀ i, ChOK position ((findLoop f base position minMatch maxML record fuel st).children i)) ∧
      List.Pairwise (fun a b => a.Length < b.Length)
        (findLoop f base position minMatch maxML record fuel st).matchCandidates ∧
      (∀ m ∈ (findLoop f base position minMatch maxML record fuel st).matchCandidates,
        m.Length ≤ (findLoop f base position minMatch maxML record fuel st).longestMatchLength ∧
        CandOK position minMatch maxML m) := by
  intro fuel
  induction fuel with
  | zero =>
      intro st hch hmp hl0 hlm hh0 hhm hlg hpw hcand
      refine ⟨?_, hpw, hcand⟩
      intro i
      simp only [findLoop, updZ]
      split_ifs
      · exact Or.inl rfl
      · exact Or.inl rfl
      · exact hch i
  | succ k ih =>
      intro st hch hmp hl0 hlm hh0 hhm hlg hpw hcand
      by_cases hguard : st.matchPosition < minMatch
      · simp only [findLoop, if_pos hguard]
        refine ⟨?_, hpw, hcand⟩
        intro i
        simp only [updZ]
        split_ifs
        · exact Or.inl rfl
        · exact Or.inl rfl
        · exact hch i
      · have hmpb : 0 ≤ st.matchPosition ∧ st.matchPosition ≤ position - 1 := by
          rcases hmp with h | h
          · exfalso; rw [h] at hguard; simp only [INVALID_POSITION] at hguard; omega
          · exact h
        simp only [findLoop, if_neg hguard]
        set ml0 := min st.lowMatchLength st.highMatchLength with hml0def
        set mlen := matchExtend f (base + position) (base + st.matchPosition)
          (maxML - ml0).toNat ml0 with hmlendef
        have hml0a : 0 ≤ ml0 := by omega
        have hml0b : ml0 ≤ maxML := by omega
        have hmlen1 : ml0 ≤ mlen := matchExtend_ge f _ _ _ ml0
        have hmlen2 : mlen ≤ maxML := by
          have h1 := matchExtend_le f (base + position) (base + st.matchPosition)
            (maxML - ml0).toNat ml0
          rw [← hmlendef] at h1
          omega
        set hit := (mlen > st.longestMatchLength ∧ mlen ≥ MIN_MATCH_LENGTH) with hhitdef
        set cands := (if hit ∧ record then
            st.matchCandidates ++ [⟨mlen, position - st.matchPosition⟩]
          else st.matchCandidates) with hcandsdef
        set longest := (if hit then mlen else st.longestMatchLength) with hlongestdef
        have hlg' : 0 ≤ longest := by
          rw [hlongestdef]
          split_ifs with hh
          · rw [hhitdef] at hh
            rw [MIN_MATCH_LENGTH] at hh
            omega
          · exact hlg
        have hpw' : List.Pairwise (fun a b => a.Length < b.Length) cands := by
          rw [hcandsdef]
          split_ifs with hh
          · rw [List.pairwise_append]
            refine ⟨hpw, List.pairwise_singleton _ _, ?_⟩
            intro a ha b hb
            simp only [List.mem_singleton] at hb
            subst hb
            have := (hcand a ha).1
            rcases hh with ⟨⟨hh1, _⟩, _⟩
            simp only
            omega
          · exact hpw
        have hcand' : ∀ m ∈ cands, m.Length ≤ longest ∧ CandOK position minMatch maxML m := by
          intro m hm
          rw [hcandsdef] at hm
          by_cases hh : hit ∧ (record : Prop)
          · rw [if_pos hh] at hm
            rcases List.mem_append.mp hm with hm | hm
            · have h1 := hcand m hm
              refine ⟨?_, h1.2⟩
              rw [hlongestdef, if_pos hh.1]
              rcases hh.1 with ⟨hh1, _⟩
              omega
            · simp only [List.mem_singleton] at hm
              subst hm
              rcases hh with ⟨⟨hh1, hh2⟩, _⟩
              refine ⟨?_, ?_, ?_, ?_, ?_⟩
              · rw [hlongestdef, if_pos ⟨hh1, hh2⟩]
              · exact hh2
              · exact hmlen2
              · simp only; omega
              · simp only; omega
          · rw [if_neg hh] at hm
            have h1 := hcand m hm
            refine ⟨?_, h1.2⟩
            rw [hlongestdef]
            split_ifs with hh2
            · rcases hh2 with ⟨hh2a, _⟩; omega
            · exact h1.1
        by_cases hbreak : hit ∧ mlen = maxML
        · rw [if_pos hbreak]
          refine ⟨?_, hpw', hcand'⟩
          intro i
          simp only [updZ]
          split_ifs <;> exact hch _
        · rw [if_neg hbreak]
          split_ifs with hcmp
          · -- go left
            refine ih _ ?_ ?_ hl0 hlm ?_ ?_ hlg' hpw' hcand' <;> simp only [updZ]
            · intro i
              split_ifs with h1
              · exact Or.inr ⟨hmpb.1, hmpb.2⟩
              · exact hch i
            · split_ifs with h1
              · exact Or.inr ⟨hmpb.1, hmpb.2⟩
              · exact hch _
            · omega
            · exact hmlen2
          · -- go right
            refine ih _ ?_ ?_ ?_ ?_ hh0 hhm hlg' hpw' hcand' <;> simp only [updZ]
            · intro i
              split_ifs with h1
              · exact Or.inr ⟨hmpb.1, hmpb.2⟩
              · exact hch i
            · split_ifs with h1
              · exact Or.inr ⟨hmpb.1, hmpb.2⟩
              · exact hch _
            · omega
            · exact hmlen2

/-- The reachable-state invariant of the dictionary: the base is
nonnegative and no larger than the absolute position; every hash-table entry
is INVALID or a relative position in `[0, cur - 1]`; every child entry is
INVALID or in `[0, max cur 1)` (the initial zero-filled `children` array
satisfies only the weaker bound at `cur = 0`). -/
def DictInv (d : Dictionary) : Prop :=
  0 ≤ d.bufferBase ∧ d.bufferBase ≤ d.absolutePosition ∧
  d.matchableBufferLength =
    (if (d.bufLen : ℤ) > TAIL_LENGTH + MIN_MATCH_LENGTH then
      (d.bufLen : ℤ) - (TAIL_LENGTH + MIN_MATCH_LENGTH) else 0) ∧
  (∀ i, d.hashTable i = INVALID_POSITION ∨
    (0 ≤ d.hashTable i ∧ d.hashTable i ≤ d.absolutePosition - d.bufferBase - 1)) ∧
  (∀ i, d.children i = INVALID_POSITION ∨
    (0 ≤ d.children i ∧ d.children i < max (d.absolutePosition - d.bufferBase) 1))

theorem REBASE_THRESHOLD_eq : REBASE_THRESHOLD = 9223372036852678656 := by decide

theorem DictInv_setBuffer (f : ℤ → ℕ) (n : ℕ) : DictInv (SetBuffer freshDictionary f n) := by
  refine ⟨le_refl 0, le_refl 0, rfl, fun i => Or.inl rfl, fun i => Or.inr ⟨le_refl 0, ?_⟩⟩
  simp [SetBuffer, freshDictionary]

theorem computeRelativePosition_spec (d : Dictionary) (h : DictInv d) :
    (computeRelativePosition d).1 =
      (computeRelativePosition d).2.absolutePosition - (computeRelativePosition d).2.bufferBase ∧
    (computeRelativePosition d).2.absolutePosition = d.absolutePosition ∧
    (computeRelativePosition d).2.buf = d.buf ∧
    (computeRelativePosition d).2.bufLen = d.bufLen ∧
    (computeRelativePosition d).2.matchableBufferLength = d.matchableBufferLength ∧
    DictInv (computeRelativePosition d).2 := by
  obtain ⟨hb0, hba, hmat, hht, hch⟩ := h
  have hT : REBASE_THRESHOLD = 9223372036852678656 := REBASE_THRESHOLD_eq
  have hD : DICTIONARY_SIZE = 2097152 := DICTIONARY_SIZE_eq
  have hI : INVALID_POSITION = -1 := rfl
  by_cases hreb : d.absolutePosition - d.bufferBase = REBASE_THRESHOLD
  · have hval : computeRelativePosition d =
        (d.absolutePosition - d.bufferBase - (REBASE_THRESHOLD - DICTIONARY_SIZE),
         { d with bufferBase := d.bufferBase + (REBASE_THRESHOLD - DICTIONARY_SIZE),
                  hashTable := fun i =>
                    if d.hashTable i ≥ REBASE_THRESHOLD - DICTIONARY_SIZE then
                      d.hashTable i - (REBASE_THRESHOLD - DICTIONARY_SIZE)
                    else INVALID_POSITION,
                  children := fun i =>
                    if d.children i ≥ REBASE_THRESHOLD - DICTIONARY_SIZE then
                      d.children i - (REBASE_THRESHOLD - DICTIONARY_SIZE)
                    else INVALID_POSITION }) := by
      simp only [computeRelativePosition, if_pos hreb]
    rw [hval]
    dsimp only
    refine ⟨by omega, rfl, rfl, rfl, rfl, by dsimp only; omega, by dsimp only; omega,
      by dsimp only; exact hmat, ?_, ?_⟩
    · intro i
      dsimp only
      rcases hht i with h | h
      · rw [h, if_neg (by rw [hI]; omega)]
        exact Or.inl rfl
      · split_ifs with h1
        · exact Or.inr ⟨by omega, by omega⟩
        · exact Or.inl rfl
    · intro i
      dsimp only
      rcases hch i with h | h
      · rw [h, if_neg (by rw [hI]; omega)]
        exact Or.inl rfl
      · split_ifs with h1
        · refine Or.inr ⟨by omega, ?_⟩
          have h2 := h.2
          omega
        · exact Or.inl rfl
  · have hval : computeRelativePosition d = (d.absolutePosition - d.bufferBase, d) := by
      simp only [computeRelativePosition, if_neg hreb]
    rw [hval]
    exact ⟨rfl, rfl, rfl, rfl, rfl, hb0, hba, hmat, hht, hch⟩

/-- Unfolding of `findLoop` when the current match position is out of range:
the two pending leaves are terminated and the loop exits. -/
theorem findLoop_exit (f : ℤ → ℕ) (base position minMatch maxML : ℤ) (record : Bool)
    (fuel : ℕ) (st : FindState) (h : st.matchPosition < minMatch) :
    findLoop f base position minMatch maxML record (fuel + 1) st =
      { st with children := updZ (updZ st.children st.leftSubtreeLeaf INVALID_POSITION) st.rightSubtreeLeaf INVALID_POSITION } := by
  simp only [findLoop, if_pos h]

/-- Main per-call lemma: a `FindMatches` call on an invariant-satisfying
dictionary preserves the invariant, and its candidate list has strictly
increasing lengths with every length in `[MIN_MATCH_LENGTH, MAX_MATCH_LENGTH]`
and every offset in `[1, DICTIONARY_SIZE - 1]`. -/
theorem findMatches_main (d : Dictionary) (r : Bool) (h : DictInv d) :
    DictInv (FindMatches d r).2 ∧
    List.Pairwise (fun a b => a.Length < b.Length) (FindMatches d r).1 ∧
    (∀ m ∈ (FindMatches d r).1,
      MIN_MATCH_LENGTH ≤ m.Length ∧ m.Length ≤ MAX_MATCH_LENGTH ∧
      1 ≤ m.Offset ∧ m.Offset ≤ DICTIONARY_SIZE - 1) := by
  have hD := DICTIONARY_SIZE_eq
  have hMX := MAX_MATCH_LENGTH_eq
  have hM3 : MIN_MATCH_LENGTH = (3 : ℤ) := rfl
  have hT8 : TAIL_LENGTH = (8 : ℤ) := by decide
  have hI : INVALID_POSITION = (-1 : ℤ) := rfl
  obtain ⟨hb0, hba, hmat, hht, hch⟩ := h
  by_cases hm : d.absolutePosition ≥ d.matchableBufferLength
  · have hval : FindMatches d r = ([], { d with absolutePosition := d.absolutePosition + 1 }) := by
      simp only [FindMatches, if_pos hm]
    rw [hval]
    refine ⟨⟨by dsimp only; omega, by dsimp only; omega, by dsimp only; exact hmat, ?_, ?_⟩,
      List.Pairwise.nil, by simp⟩
    · intro i
      dsimp only
      rcases hht i with h | h
      · exact Or.inl h
      · exact Or.inr ⟨h.1, by omega⟩
    · intro i
      dsimp only
      rcases hch i with h | h
      · exact Or.inl h
      · refine Or.inr ⟨h.1, ?_⟩
        have h2 := h.2
        omega
  · push_neg at hm
    obtain ⟨hpr1, hprabs, hprbuf, hprlen, hprmat, hprinv⟩ :=
      computeRelativePosition_spec d ⟨hb0, hba, hmat, hht, hch⟩
    obtain ⟨hb0', hba', hmat', hht', hch'⟩ := hprinv
    simp only [FindMatches]
    rw [if_neg (not_le.mpr hm)]
    set pos := (computeRelativePosition d).1 with hposdef
    set d1 := (computeRelativePosition d).2 with hd1def
    set maxML := min ((d.bufLen : ℤ) - TAIL_LENGTH - d.absolutePosition) MAX_MATCH_LENGTH
      with hmaxdef
    set minMatch := (if pos ≥ DICTIONARY_SIZE then pos - DICTIONARY_SIZE + 1 else 0) with hminmdef
    set hv := hashFNV d1.buf (d1.bufferBase + pos) % HASH_TABLE_SIZE with hhvdef
    have hpos0 : 0 ≤ pos := by omega
    have hbuf11 : d.matchableBufferLength = (d.bufLen : ℤ) - 11 ∧ (11 : ℤ) < (d.bufLen : ℤ) := by
      split_ifs at hmat with hgt
      · exact ⟨by omega, by omega⟩
      · exfalso; omega
    have hmax0 : 4 ≤ maxML := by omega
    have hmaxle : maxML ≤ 258 := by omega
    have hmin0 : 0 ≤ minMatch := by
      rw [hminmdef]
      split_ifs <;> omega
    have hoffb : pos - minMatch ≤ DICTIONARY_SIZE - 1 := by
      rw [hminmdef]
      split_ifs with hge
      · omega
      · omega
    by_cases hp1 : 1 ≤ pos
    · have hchOK : ∀ i, ChOK pos (d1.children i) := by
        intro i
        rcases hch' i with h | h
        · exact Or.inl h
        · refine Or.inr ⟨h.1, ?_⟩
          have h2 := h.2
          omega
      have hmpOK : ChOK pos (d1.hashTable hv) := by
        rcases hht' hv with h | h
        · exact Or.inl h
        · exact Or.inr ⟨h.1, by omega⟩
      have hloop := findLoop_inv d1.buf d1.bufferBase pos minMatch maxML r hmin0
        MAX_MATCH_CANDIDATE_COUNT
        ⟨d1.hashTable hv, cyclic pos * 2, cyclic pos * 2 + 1, 0, 0, 0, [], d1.children⟩
        hchOK hmpOK (le_refl 0) (by dsimp only; omega) (le_refl 0) (by dsimp only; omega)
        (le_refl 0) List.Pairwise.nil (by simp)
      refine ⟨⟨by dsimp only; omega, by dsimp only; omega, ?_, ?_, ?_⟩, hloop.2.1, ?_⟩
      · dsimp only
        rw [hprmat, hprlen]
        exact hmat
      · intro i
        dsimp only
        simp only [updZ]
        split_ifs with hiv
        · exact Or.inr ⟨hpos0, by omega⟩
        · rcases hht' i with h | h
          · exact Or.inl h
          · exact Or.inr ⟨h.1, by omega⟩
      · intro i
        dsimp only
        rcases hloop.1 i with h | h
        · exact Or.inl h
        · refine Or.inr ⟨h.1, ?_⟩
          have h2 := h.2
          omega
      · intro m hm2
        have hc := (hloop.2.2 m hm2).2
        obtain ⟨hc1, hc2, hc3, hc4⟩ := hc
        exact ⟨hc1, by omega, hc3, by omega⟩
    · have hpz : pos = 0 := by omega
      have hminz : minMatch = 0 := by
        rw [hminmdef, hpz]
        rw [if_neg (by omega)]
      have hmp : d1.hashTable hv = INVALID_POSITION := by
        rcases hht' hv with h | h
        · exact h
        · exfalso; omega
      have hstF : findLoop d1.buf d1.bufferBase pos minMatch maxML r MAX_MATCH_CANDIDATE_COUNT
          ⟨d1.hashTable hv, cyclic pos * 2, cyclic pos * 2 + 1, 0, 0, 0, [], d1.children⟩ =
          ⟨d1.hashTable hv, cyclic pos * 2, cyclic pos * 2 + 1, 0, 0, 0, [],
            updZ (updZ d1.children (cyclic pos * 2) INVALID_POSITION) (cyclic pos * 2 + 1)
              INVALID_POSITION⟩ := by
        rw [show MAX_MATCH_CANDIDATE_COUNT = 127 + 1 from rfl,
          findLoop_exit d1.buf d1.bufferBase pos minMatch maxML r 127 _
            (by dsimp only; rw [hmp, hminz, hI]; omega)]
      rw [hstF]
      refine ⟨⟨by dsimp only; omega, by dsimp only; omega, ?_, ?_, ?_⟩,
        List.Pairwise.nil, by simp⟩
      · dsimp only
        rw [hprmat, hprlen]
        exact hmat
      · intro i
        dsimp only
        simp only [updZ]
        split_ifs with hiv
        · exact Or.inr ⟨hpos0, by omega⟩
        · rcases hht' i with h | h
          · exact Or.inl h
          · exact Or.inr ⟨h.1, by omega⟩
      · intro i
        dsimp only
        simp only [updZ]
        split_ifs with h1 h2
        · exact Or.inl rfl
        · exact Or.inl rfl
        · rcases hch' i with h | h
          · exact Or.inl h
          · refine Or.inr ⟨h.1, ?_⟩
            have h2 := h.2
            omega

theorem DictInv_runCalls (f : ℤ → ℕ) (n : ℕ) (calls : List Bool) :
    DictInv (runCalls f n calls) := by
  induction calls with
  | nil => exact DictInv_setBuffer f n
  | cons r rest ih => exact (findMatches_main _ r ih).1

/-- C3 (amended, confirmed): after `SetBuffer` on a fresh dictionary and any
sequence of `FindMatches`/`Skip` calls, every entry of `hashTable` and
`children` is either INVALID_POSITION or a relative position `p` with
`0 ≤ p < currentRelative + 1`.  The windowed lower bound
`max(0, currentRelative - DICTIONARY_SIZE + 1) ≤ p` of the original claim
does not hold: stale entries persist (see the counterexample). -/
theorem dictionary_entries_upper_window (f : ℤ → ℕ) (n : ℕ) (calls : List Bool) :
    (∀ i < HASH_TABLE_SIZE, (runCalls f n calls).hashTable i = INVALID_POSITION ∨
      (0 ≤ (runCalls f n calls).hashTable i ∧
       (runCalls f n calls).hashTable i <
         (runCalls f n calls).absolutePosition - (runCalls f n calls).bufferBase + 1)) ∧
    (∀ i < CHILD_COUNT, (runCalls f n calls).children i = INVALID_POSITION ∨
      (0 ≤ (runCalls f n calls).children i ∧
       (runCalls f n calls).children i <
         (runCalls f n calls).absolutePosition - (runCalls f n calls).bufferBase + 1)) := by
  obtain ⟨hb0, hba, hmat, hht, hch⟩ := DictInv_runCalls f n calls
  constructor
  · intro i _
    rcases hht i with h | h
    · exact Or.inl h
    · exact Or.inr ⟨h.1, by omega⟩
  · intro i _
    rcases hch i with h | h
    · exact Or.inl h
    · refine Or.inr ⟨h.1, ?_⟩
      have h2 := h.2
      omega

/-- C8 (confirmed): after `SetBuffer` and any sequence of calls, a
`FindMatches` call with a non-nil output returns candidates whose lengths are
strictly increasing, with every length in
`[MIN_MATCH_LENGTH, MAX_MATCH_LENGTH]` and every offset in
`[1, DICTIONARY_SIZE]`. -/
theorem findMatches_candidates_sorted_and_bounded (f : ℤ → ℕ) (n : ℕ) (calls : List Bool) :
    List.Pairwise (fun a b => a.Length < b.Length) (FindMatches (runCalls f n calls) true).1 ∧
    ∀ m ∈ (FindMatches (runCalls f n calls) true).1,
      MIN_MATCH_LENGTH ≤ m.Length ∧ m.Length ≤ MAX_MATCH_LENGTH ∧
      1 ≤ m.Offset ∧ m.Offset ≤ DICTIONARY_SIZE := by
  have h := findMatches_main (runCalls f n calls) true (DictInv_runCalls f n calls)
  refine ⟨h.2.1, fun m hm => ?_⟩
  obtain ⟨h1, h2, h3, h4⟩ := h.2.2 m hm
  exact ⟨h1, h2, h3, by omega⟩

/-! ## A concrete run violating the claimed window invariant

On the buffer `1, 2, 3, 0, 0, ...` the hash bucket of the byte triple
`(1,2,3)` is written once (at position 0) and never again: every position
from 3 on hashes the triple `(0,0,0)`.  After `DICTIONARY_SIZE` steps the
stale entry 0 lies below the claimed window lower bound. -/

/-- Unfolding of one `findLoop` iteration that records a maximal-length match
and breaks (splicing the found node out of the tree). -/
theorem findLoop_break (f : ℤ → ℕ) (base position minMatch maxML : ℤ) (record : Bool)
    (fuel : ℕ) (st : FindState) (mlen : ℤ)
    (hguard : ¬ st.matchPosition < minMatch)
    (hml : matchExtend f (base + position) (base + st.matchPosition)
      (maxML - min st.lowMatchLength st.highMatchLength).toNat
      (min st.lowMatchLength st.highMatchLength) = mlen)
    (hhit : mlen > st.longestMatchLength ∧ mlen ≥ MIN_MATCH_LENGTH)
    (hbreak : mlen = maxML) :
    findLoop f base position minMatch maxML record (fuel + 1) st =
      { st with
        matchCandidates := if record then st.matchCandidates ++ [⟨mlen, position - st.matchPosition⟩] else st.matchCandidates,
        longestMatchLength := mlen,
        children := updZ (updZ st.children st.leftSubtreeLeaf (st.children (cyclic st.matchPosition * 2))) st.rightSubtreeLeaf ((updZ st.children st.leftSubtreeLeaf (st.children (cyclic st.matchPosition * 2))) (cyclic st.matchPosition * 2 + 1)) } := by
  simp only [findLoop, if_neg hguard]
  rw [hml, if_pos ⟨hhit, hbreak⟩]
  cases record
  · rw [if_pos hhit,
      if_neg (show ¬((mlen > st.longestMatchLength ∧ mlen ≥ MIN_MATCH_LENGTH) ∧ false = true) by
        simp),
      if_neg (show ¬(false = true) by simp)]
  · rw [if_pos hhit,
      if_pos (show (mlen > st.longestMatchLength ∧ mlen ≥ MIN_MATCH_LENGTH) ∧ true = true from
        ⟨hhit, rfl⟩),
      if_pos (show true = true from rfl)]

/-- The counterexample buffer: bytes `1, 2, 3` followed by zeros. -/
def cexBuf : ℤ → ℕ := fun i => if i = 0 then 1 else if i = 1 then 2 else if i = 2 then 3 else 0

/-- The counterexample buffer length, `DICTIONARY_SIZE + 300`. -/
def cexLen : ℕ := 2097452

theorem cexBuf_zero (i : ℤ) (h : 3 ≤ i) : cexBuf i = 0 := by
  unfold cexBuf
  rw [if_neg (by omega), if_neg (by omega), if_neg (by omega)]

/-- Bucket of the byte triple (0,0,0): every position from 3 on. -/
theorem cexHash_tail (k : ℤ) (h : 3 ≤ k) : hashFNV cexBuf k % HASH_TABLE_SIZE = 63415 := by
  unfold hashFNV
  rw [cexBuf_zero k (by omega), cexBuf_zero (k + 1) (by omega), cexBuf_zero (k + 2) (by omega)]
  decide

theorem cexHash_0 : hashFNV cexBuf 0 % HASH_TABLE_SIZE = 997291 := by decide

theorem cexHash_1 : hashFNV cexBuf 1 % HASH_TABLE_SIZE = 55478 := by decide

theorem cexHash_2 : hashFNV cexBuf 2 % HASH_TABLE_SIZE = 502530 := by decide

theorem cyclic_small (p : ℤ) (h0 : 0 ≤ p) (h1 : p < DICTIONARY_SIZE) : cyclic p = p.toNat := by
  unfold cyclic
  rw [Int.emod_eq_of_lt h0 h1]

/-- Match extension over the all-zero region runs to the full fuel. -/
theorem cexExtend (i j : ℤ) (hi : 3 ≤ i) (hj : 3 ≤ j) :
    ∀ (fuel : ℕ) (ml : ℤ), 0 ≤ ml → matchExtend cexBuf i j fuel ml = ml + fuel := by
  intro fuel
  induction fuel with
  | zero => intro ml _; simp [matchExtend]
  | succ k ih =>
      intro ml hml
      simp only [matchExtend]
      rw [if_pos (by rw [cexBuf_zero (i + ml) (by omega), cexBuf_zero (j + ml) (by omega)]),
        ih (ml + 1) (by omega)]
      push_cast
      ring

/-- One `Skip` on the counterexample buffer at a position whose hash bucket
is still empty: the position is stored in the bucket and the two leaf slots
are invalidated. -/
theorem cexSkipEmpty (d : Dictionary) (k : ℕ) (hk : k ≤ 3)
    (hbuf : d.buf = cexBuf) (hbase : d.bufferBase = 0)
    (habs : d.absolutePosition = (k : ℤ))
    (hmat : d.matchableBufferLength = (cexLen : ℤ) - 11)
    (hv : ℕ) (hhv : hashFNV cexBuf (k : ℤ) % HASH_TABLE_SIZE = hv)
    (hmp : d.hashTable hv = INVALID_POSITION) :
    Skip d = { d with hashTable := updZ d.hashTable hv (k : ℤ),
                      children := updZ (updZ d.children (k * 2) INVALID_POSITION) (k * 2 + 1) INVALID_POSITION,
                      absolutePosition := (k : ℤ) + 1 } := by
  have hcex : (cexLen : ℤ) = 2097452 := by norm_num [cexLen]
  have hD := DICTIONARY_SIZE_eq
  unfold Skip
  simp only [FindMatches]
  rw [if_neg (by rw [habs, hmat]; omega)]
  have hcrp : computeRelativePosition d = ((k : ℤ), d) := by
    simp only [computeRelativePosition]
    rw [habs, hbase, if_neg (by rw [REBASE_THRESHOLD_eq]; omega)]
    norm_num
  rw [hcrp]
  dsimp only
  rw [hbuf, hbase, zero_add, hhv, hmp, habs]
  rw [cyclic_small (k : ℤ) (by omega) (by omega)]
  rw [show ((k : ℤ)).toNat = k from Int.toNat_natCast k]
  rw [if_neg (show ¬((k : ℤ) ≥ DICTIONARY_SIZE) by omega)]
  rw [show MAX_MATCH_CANDIDATE_COUNT = 127 + 1 from rfl,
    findLoop_exit _ _ _ _ _ _ 127 _ (by dsimp only; decide)]

/-- State of the counterexample run after `k ≥ 4` calls: the four buckets
hold positions 0, 1, 2 and (most recently) `k - 1`; every child slot below
`2k` has been invalidated, the rest still hold their initial zeros. -/
def cexState (k : ℕ) (d : Dictionary) : Prop :=
  d.buf = cexBuf ∧ d.bufLen = cexLen ∧ d.bufferBase = 0 ∧ d.absolutePosition = (k : ℤ) ∧
  d.matchableBufferLength = (cexLen : ℤ) - 11 ∧
  (∀ i, d.hashTable i =
    if i = 63415 then (k : ℤ) - 1 else if i = 502530 then 2 else if i = 55478 then 1
    else if i = 997291 then 0 else -1) ∧
  (∀ i, d.children i = if i < 2 * k then -1 else 0)

/-- One `Skip` in the all-zero region: position `k` replaces `k - 1` as the
root of bucket 63415, a maximal match against position `k - 1` is found at
once, and the splice copies two already-invalid slots. -/
theorem cexStep (k : ℕ) (hk4 : 4 ≤ k) (hkB : k ≤ 2 ^ 21 - 1) (d : Dictionary)
    (h : cexState k d) : cexState (k + 1) (Skip d) := by
  obtain ⟨hbuf, hlen, hbase, habs, hmat, hht, hch⟩ := h
  have hcex : (cexLen : ℤ) = 2097452 := by norm_num [cexLen]
  have hD := DICTIONARY_SIZE_eq
  have hT8 : TAIL_LENGTH = (8 : ℤ) := by decide
  have hMX := MAX_MATCH_LENGTH_eq
  unfold Skip
  simp only [FindMatches]
  rw [if_neg (by rw [habs, hmat]; omega)]
  have hcrp : computeRelativePosition d = ((k : ℤ), d) := by
    simp only [computeRelativePosition]
    rw [habs, hbase, if_neg (by rw [REBASE_THRESHOLD_eq]; omega)]
    norm_num
  rw [hcrp]
  dsimp only
  rw [hbuf, hbase, zero_add, cexHash_tail (k : ℤ) (by omega)]
  rw [show d.hashTable 63415 = (k : ℤ) - 1 from by rw [hht 63415]; rfl]
  rw [habs, hlen]
  rw [show min ((cexLen : ℤ) - TAIL_LENGTH - (k : ℤ)) MAX_MATCH_LENGTH = 258 from by omega]
  rw [cyclic_small (k : ℤ) (by omega) (by omega)]
  rw [show ((k : ℤ)).toNat = k from Int.toNat_natCast k]
  rw [if_neg (show ¬((k : ℤ) ≥ DICTIONARY_SIZE) by omega)]
  rw [show MAX_MATCH_CANDIDATE_COUNT = 127 + 1 from rfl]
  rw [findLoop_break cexBuf 0 (k : ℤ) 0 258 false 127 _ 258
    (by dsimp only; omega)
    (by
      dsimp only
      rw [show min (0 : ℤ) 0 = 0 from rfl]
      rw [show ((258 : ℤ) - 0).toNat = 258 from by decide]
      exact cexExtend (0 + (k : ℤ)) (0 + ((k : ℤ) - 1)) (by omega) (by omega) 258 0 (le_refl 0))
    (by dsimp only; constructor <;> decide)
    rfl]
  dsimp only
  rw [cyclic_small ((k : ℤ) - 1) (by omega) (by omega)]
  rw [show ((k : ℤ) - 1).toNat = k - 1 from by omega]
  refine ⟨rfl, rfl, rfl, by dsimp only; push_cast; ring, by dsimp only; exact hmat, ?_, ?_⟩
  · intro i
    dsimp only
    simp only [updZ]
    by_cases h1 : i = 63415
    · rw [if_pos h1, if_pos h1]
      push_cast
      ring
    · rw [if_neg h1, if_neg h1, hht i, if_neg h1]
  · intro i
    dsimp only
    simp only [updZ]
    by_cases h1 : i = k * 2 + 1
    · rw [if_pos h1, if_neg (show ¬((k - 1) * 2 + 1 = k * 2) by omega),
        hch ((k - 1) * 2 + 1), if_pos (show (k - 1) * 2 + 1 < 2 * k by omega),
        if_pos (show i < 2 * (k + 1) by omega)]
    · rw [if_neg h1]
      by_cases h2 : i = k * 2
      · rw [if_pos h2, hch ((k - 1) * 2), if_pos (show (k - 1) * 2 < 2 * k by omega),
          if_pos (show i < 2 * (k + 1) by omega)]
      · rw [if_neg h2, hch i]
        by_cases h3 : i < 2 * k
        · rw [if_pos h3, if_pos (show i < 2 * (k + 1) by omega)]
        · rw [if_neg h3, if_neg (show ¬ i < 2 * (k + 1) by omega)]

/-- State of the counterexample run during its first four calls: bucket
`997291` (bytes 1,2,3) is written at position 0, then `55478`, `502530` and
finally the all-zero bucket `63415` at position 3. -/
def cexPre (k : ℕ) (d : Dictionary) : Prop :=
  d.buf = cexBuf ∧ d.bufLen = cexLen ∧ d.bufferBase = 0 ∧ d.absolutePosition = (k : ℤ) ∧
  d.matchableBufferLength = (cexLen : ℤ) - 11 ∧
  (∀ i, d.hashTable i =
    if i = 997291 ∧ 1 ≤ k then 0 else if i = 55478 ∧ 2 ≤ k then 1
    else if i = 502530 ∧ 3 ≤ k then 2 else if i = 63415 ∧ 4 ≤ k then 3 else -1) ∧
  (∀ i, d.children i = if i < 2 * k then -1 else 0)

theorem cexPre0 : cexPre 0 (SetBuffer freshDictionary cexBuf cexLen) := by
  refine ⟨rfl, rfl, rfl, rfl, ?_, ?_, ?_⟩
  · norm_num [SetBuffer, cexLen, TAIL_LENGTH, MIN_MATCH_LENGTH, WORD_SIZE]
  · intro i
    show INVALID_POSITION = _
    norm_num [INVALID_POSITION]
  · intro i
    show (0 : ℤ) = _
    norm_num

theorem cexPreStep (k : ℕ) (hk : k ≤ 3) (d : Dictionary) (h : cexPre k d) :
    cexPre (k + 1) (Skip d) := by
  obtain ⟨hbuf, hlen, hbase, habs, hmat, hht, hch⟩ := h
  have hI : INVALID_POSITION = (-1 : ℤ) := rfl
  interval_cases k
  · rw [cexSkipEmpty d 0 (by norm_num) hbuf hbase habs hmat 997291 cexHash_0
      (by rw [hht 997291]; decide)]
    refine ⟨hbuf, hlen, hbase, by dsimp only; norm_num, hmat, ?_, ?_⟩
    · intro i
      dsimp only
      simp only [updZ]
      rw [hht i]
      split_ifs <;> omega
    · intro i
      dsimp only
      simp only [updZ]
      rw [hch i]
      split_ifs <;> omega
  · rw [cexSkipEmpty d 1 (by norm_num) hbuf hbase habs hmat 55478 cexHash_1
      (by rw [hht 55478]; decide)]
    refine ⟨hbuf, hlen, hbase, by dsimp only; norm_num, hmat, ?_, ?_⟩
    · intro i
      dsimp only
      simp only [updZ]
      rw [hht i]
      split_ifs <;> omega
    · intro i
      dsimp only
      simp only [updZ]
      rw [hch i]
      split_ifs <;> omega
  · rw [cexSkipEmpty d 2 (by norm_num) hbuf hbase habs hmat 502530 cexHash_2
      (by rw [hht 502530]; decide)]
    refine ⟨hbuf, hlen, hbase, by dsimp only; norm_num, hmat, ?_, ?_⟩
    · intro i
      dsimp only
      simp only [updZ]
      rw [hht i]
      split_ifs <;> omega
    · intro i
      dsimp only
      simp only [updZ]
      rw [hch i]
      split_ifs <;> omega
  · rw [cexSkipEmpty d 3 (by norm_num) hbuf hbase habs hmat 63415
      (cexHash_tail 3 (by norm_num)) (by rw [hht 63415]; decide)]
    refine ⟨hbuf, hlen, hbase, by dsimp only; norm_num, hmat, ?_, ?_⟩
    · intro i
      dsimp only
      simp only [updZ]
      rw [hht i]
      split_ifs <;> omega
    · intro i
      dsimp only
      simp only [updZ]
      rw [hch i]
      split_ifs <;> omega

theorem cexState4 : cexState 4 (runCalls cexBuf cexLen (List.replicate 4 false)) := by
  have h4 : cexPre 4 (runCalls cexBuf cexLen (List.replicate 4 false)) := by
    rw [show List.replicate 4 false = false :: false :: false :: false :: [] from rfl]
    show cexPre 4 (Skip (Skip (Skip (Skip (SetBuffer freshDictionary cexBuf cexLen)))))
    exact cexPreStep 3 (by norm_num) _ (cexPreStep 2 (by norm_num) _
      (cexPreStep 1 (by norm_num) _ (cexPreStep 0 (by norm_num) _ cexPre0)))
  obtain ⟨hbuf, hlen, hbase, habs, hmat, hht, hch⟩ := h4
  refine ⟨hbuf, hlen, hbase, habs, hmat, ?_, hch⟩
  intro i
  rw [hht i]
  split_ifs <;> omega

theorem cexStateAll : ∀ k, 4 ≤ k → k ≤ 2 ^ 21 →
    cexState k (runCalls cexBuf cexLen (List.replicate k false)) := by
  intro k
  induction k with
  | zero => intro h4 _; exact absurd h4 (by norm_num)
  | succ n ih =>
      intro h4 hle
      by_cases hn : n = 3
      · subst hn
        exact cexState4
      · have hn4 : 4 ≤ n := by omega
        rw [List.replicate_succ]
        show cexState (n + 1) (Skip (runCalls cexBuf cexLen (List.replicate n false)))
        exact cexStep n hn4 (by omega) _ (ih hn4 (by omega))

/-- The window invariant exactly as the claim states it: every entry of
`hashTable` and `children` is INVALID_POSITION or a relative position p with
`max 0 (currentRelative - DICTIONARY_SIZE + 1) ≤ p < currentRelative + 1`. -/
def windowClaim (d : Dictionary) : Prop :=
  (∀ i < HASH_TABLE_SIZE, d.hashTable i = INVALID_POSITION ∨
    (max 0 (d.absolutePosition - d.bufferBase - DICTIONARY_SIZE + 1) ≤ d.hashTable i ∧
     d.hashTable i < d.absolutePosition - d.bufferBase + 1)) ∧
  (∀ i < CHILD_COUNT, d.children i = INVALID_POSITION ∨
    (max 0 (d.absolutePosition - d.bufferBase - DICTIONARY_SIZE + 1) ≤ d.children i ∧
     d.children i < d.absolutePosition - d.bufferBase + 1))

/-- C3 (counterexample): after `SetBuffer` on a fresh dictionary with the
buffer `1, 2, 3, 0, 0, ...` of length DICTIONARY_SIZE + 300 and
DICTIONARY_SIZE `Skip` calls, the hash bucket of the byte triple (1,2,3)
still holds relative position 0 while the claimed lower bound
`max 0 (currentRelative - DICTIONARY_SIZE + 1)` equals 1, so the claimed
window invariant is violated. -/
theorem dictionary_window_claim_counterexample :
    ¬ windowClaim (runCalls cexBuf cexLen (List.replicate (2 ^ 21) false)) := by
  obtain ⟨hbuf, hlen, hbase, habs, hmat, hht, hch⟩ :=
    cexStateAll (2 ^ 21) (by norm_num) (le_refl _)
  have hA : (runCalls cexBuf cexLen (List.replicate (2 ^ 21) false)).hashTable 997291 = 0 := by
    rw [hht 997291]
    norm_num
  intro hclaim
  have hcl := hclaim.1 997291 (by decide)
  rw [hA] at hcl
  rcases hcl with h | h
  · exact absurd h (by decide)
  · have h1 := h.1
    rw [habs, hbase, DICTIONARY_SIZE_eq] at h1
    have : ((2 ^ 21 : ℕ) : ℤ) = 2097152 := by norm_num
    omega

/-! ## Compressor driver (compressor.go `Compress`/`store`)

The compressor threads an output cursor, a control word with its bit cursor
and backpatch pointer, the look-ahead match and the dictionary through the
main loop.  The `Compressor` receiver is its dictionary field, which
`SetBuffer` re-initialises (keeping the `children` array). -/

/-- `controlWordBitCount = WORD_SIZE*8 - 1`: the highest bit of a control
word is the guard bit marking the end of the bit list. -/
def controlWordBitCount : ℤ := WORD_SIZE * 8 - 1

/-- `controlWordGuardBit = 1 << controlWordBitCount`. -/
def controlWordGuardBit : ℕ := 1 <<< controlWordBitCount.toNat

/-- View a byte list as the total buffer `ℤ → ℕ` handed to the dictionary. -/
def srcZ (source : List ℕ) : ℤ → ℕ := fun i => source.getD i.toNat 0

/-- `Compressor.store`: encodes a stored-mode header, copies the source
bytes after it, and always returns RESULT_OK with compressed size
`headerSize + len(source)`. -/
def store (source : List ℕ) (destination : ℕ → ℕ) : Result × ℤ × (ℕ → ℕ) :=
  let maxCompressedSize := GetMaxCompressedSize (source.length : ℤ)
  let headerSize := getHeaderSize maxCompressedSize
  let compressedSize := headerSize + (source.length : ℤ)
  let header : Header := ⟨source.length, compressedSize.toNat, VERSION, true⟩
  let d1 := encodeHeader header maxCompressedSize destination
  let d2 := fun j => if headerSize.toNat ≤ j ∧ j < headerSize.toNat + source.length
      then source.getD (j - headerSize.toNat) 0 else d1 j
  (RESULT_OK, compressedSize, d2)

/-- The loop state of `Compressor.Compress`. -/
structure CompState where
  outputIterator : ℤ
  controlWord : ℕ
  controlWordBit : ℤ
  controlWordPointer : ℤ
  nextMatch : Match
  dict : Dictionary
  out : ℕ → ℕ

/-- The control-word flush at the top of a `Compress` loop iteration
(`controlWordBit == controlWordBitCount`). -/
def flushControl (st : CompState) : CompState :=
  if st.controlWordBit = controlWordBitCount then
    { st with out := fastWrite st.out st.controlWordPointer.toNat st.controlWord WORD_SIZE.toNat,
              controlWord := controlWordGuardBit,
              controlWordBit := 0,
              controlWordPointer := st.outputIterator,
              outputIterator := st.outputIterator + WORD_SIZE }
  else st

/-- `for i := 0; i < n; i++ { c.dict.Skip() }` after encoding a match. -/
def skipN (d : Dictionary) : ℕ → Dictionary
  | 0 => d
  | n + 1 => skipN (Skip d) n

/-- The epilogue of `Compress` after the main loop: flush the control word,
write the trailing dummy bytes and encode the non-stored header. -/
def compressFinish (source : List ℕ) (maxCompressedSize : ℤ) (st : CompState) :
    Result × ℤ × (ℕ → ℕ) :=
  let out1 := fastWrite st.out st.controlWordPointer.toNat st.controlWord WORD_SIZE.toNat
  let out2 := fastWrite out1 st.outputIterator.toNat 0 TRAILING_DUMMY_SIZE.toNat
  let compressedSize := st.outputIterator + TRAILING_DUMMY_SIZE
  let header : Header := ⟨source.length, compressedSize.toNat, VERSION, false⟩
  (RESULT_OK, compressedSize, encodeHeader header maxCompressedSize out2)

/-- The main loop of `Compressor.Compress`
(`for c.dict.Position()-1 < len(source)`).  At least one dictionary position
is consumed per iteration, so fuel `len(source) + 1` suffices; running out of
fuel (unreachable) is reported as corrupted data. -/
def compressLoop (source : List ℕ) (maxOutputEnd maxCompressedSize : ℤ) :
    ℕ → CompState → Result × ℤ × (ℕ → ℕ)
  | 0, st =>
      if Position st.dict - 1 < (source.length : ℤ) then
        (RESULT_ERROR_CORRUPTED_DATA, 0, st.out)
      else compressFinish source maxCompressedSize st
  | fuel + 1, st =>
      if Position st.dict - 1 < (source.length : ℤ) then
        -- up to 8 bytes may be output per iteration, plus the trailing dummies
        if st.outputIterator + 2 * WORD_SIZE + TRAILING_DUMMY_SIZE > maxOutputEnd then
          store source st.out
        else
          let st1 := flushControl st
          let m := st1.nextMatch
          let fm := FindMatches st1.dict true
          let nextMatch0 := getBestMatch fm.1
          -- lazy evaluation: drop the current match if the next one is better
          let m1 := if m.Length > 0 ∧
              (1 + nextMatch0.Length) * getMatchCodedSize m >
                m.Length * (1 + getMatchCodedSize nextMatch0)
            then { m with Length := 0 } else m
          if m1.Length = 0 then
            -- literal: the dictionary position is two characters ahead
            compressLoop source maxOutputEnd maxCompressedSize fuel
              { st1 with
                  out := fastWrite st1.out st1.outputIterator.toNat
                    (source.getD (Position fm.2 - 2).toNat 0) 1,
                  outputIterator := st1.outputIterator + 1,
                  controlWordBit := st1.controlWordBit + 1,
                  nextMatch := nextMatch0, dict := fm.2 }
          else
            let em := encodeMatch m1 st1.out st1.outputIterator.toNat
            let d2 := skipN fm.2 (m1.Length - 2).toNat
            let fm2 := FindMatches d2 true
            compressLoop source maxOutputEnd maxCompressedSize fuel
              { st1 with
                  out := em.1,
                  outputIterator := st1.outputIterator + em.2,
                  controlWord := st1.controlWord ||| (1 <<< st1.controlWordBit.toNat),
                  controlWordBit := st1.controlWordBit + 1,
                  nextMatch := getBestMatch fm2.1, dict := fm2.2 }
      else compressFinish source maxCompressedSize st

/-- `Compressor.Compress`; `c` is the compressor's dictionary field.  The
destination buffer is a total function plus its length; the result, the
compressed size and the final buffer contents are returned. -/
def Compress (c : Dictionary) (source : List ℕ) (destLen : ℤ) (dest : ℕ → ℕ) :
    Result × ℤ × (ℕ → ℕ) :=
  if source.length = 0 then (RESULT_ERROR_BUFFER_TOO_SMALL, 0, dest)
  else
    let maxCompressedSize := GetMaxCompressedSize (source.length : ℤ)
    if destLen < maxCompressedSize then (RESULT_ERROR_BUFFER_TOO_SMALL, 0, dest)
    else
      let maxOutputEnd := maxCompressedSize
      let outputIterator := getHeaderSize maxCompressedSize
      let dict0 := SetBuffer c (srcZ source) source.length
      -- the control word is allocated at outputIterator, then the match
      -- look-ahead consumes dictionary position 0
      compressLoop source maxOutputEnd maxCompressedSize (source.length + 1)
        ⟨outputIterator + WORD_SIZE, controlWordGuardBit, 0, outputIterator, ⟨0, 0⟩,
         Skip dict0, dest⟩

theorem computeRelativePosition_absolutePosition (d : Dictionary) :
    (computeRelativePosition d).2.absolutePosition = d.absolutePosition := by
  unfold computeRelativePosition
  dsimp only
  split <;> rfl

theorem FindMatches_position (d : Dictionary) (r : Bool) :
    Position (FindMatches d r).2 = Position d + 1 := by
  by_cases h : d.absolutePosition ≥ d.matchableBufferLength
  · simp only [FindMatches, if_pos h, Position]
  · simp only [FindMatches, if_neg h, Position]
    rw [computeRelativePosition_absolutePosition]

theorem Skip_position (d : Dictionary) : Position (Skip d) = Position d + 1 :=
  FindMatches_position d false

theorem skipN_position (d : Dictionary) (n : ℕ) :
    Position (skipN d n) = Position d + n := by
  induction n generalizing d with
  | zero => simp [skipN]
  | succ k ih =>
      rw [skipN, ih, Skip_position]
      push_cast
      ring

theorem SetBuffer_position (d : Dictionary) (f : ℤ → ℕ) (n : ℕ) :
    Position (SetBuffer d f n) = 0 := rfl

theorem store_result (source : List ℕ) (destination : ℕ → ℕ) :
    (store source destination).1 = RESULT_OK := rfl

theorem compressFinish_result (source : List ℕ) (m : ℤ) (st : CompState) :
    (compressFinish source m st).1 = RESULT_OK := rfl

theorem flushControl_dict (st : CompState) : (flushControl st).dict = st.dict := by
  unfold flushControl
  split <;> rfl

/-- The compress loop cannot run out of fuel when the fuel covers the
remaining input, because each iteration advances the dictionary position by
at least one; and both ways out of the loop (`store` on output overflow and
the normal epilogue) return RESULT_OK. -/
theorem compressLoop_ok (source : List ℕ) (maxOutputEnd maxCompressedSize : ℤ) (fuel : ℕ)
    (st : CompState) (h : (source.length : ℤ) ≤ Position st.dict - 1 + fuel) :
    (compressLoop source maxOutputEnd maxCompressedSize fuel st).1 = RESULT_OK := by
  induction fuel generalizing st with
  | zero =>
      have hg : ¬ Position st.dict - 1 < (source.length : ℤ) := by push_cast at h; omega
      rw [compressLoop, if_neg hg]
      exact compressFinish_result source maxCompressedSize st
  | succ fuel ih =>
      rw [compressLoop]
      by_cases hg : Position st.dict - 1 < (source.length : ℤ)
      · rw [if_pos hg]
        by_cases hov : st.outputIterator + 2 * WORD_SIZE + TRAILING_DUMMY_SIZE > maxOutputEnd
        · rw [if_pos hov]
          exact store_result source st.out
        · rw [if_neg hov]
          dsimp only
          split_ifs with hc h2 h3
          · exact ih _ (by
              dsimp only
              rw [FindMatches_position, flushControl_dict]
              push_cast at h ⊢
              omega)
          · exact absurd rfl h2
          · exact ih _ (by
              dsimp only
              rw [FindMatches_position, flushControl_dict]
              push_cast at h ⊢
              omega)
          · exact ih _ (by
              dsimp only
              rw [FindMatches_position, skipN_position, FindMatches_position, flushControl_dict]
              push_cast at h ⊢
              omega)
      · rw [if_neg hg]
        exact compressFinish_result source maxCompressedSize st

/-- C9 (confirmed): `Compress` returns BufferTooSmall exactly when the source
is empty or the destination is shorter than
`GetMaxCompressedSize(len(source))`; on every other input it returns
RESULT_OK — in particular the output-size overflow check hands over to
`store`, which also returns RESULT_OK, so the stored-mode fallback is not
reported as an error. -/
theorem compress_result_characterization (c : Dictionary) (source : List ℕ)
    (destLen : ℤ) (dest : ℕ → ℕ) :
    (Compress c source destLen dest).1 =
      if source.length = 0 ∨ destLen < GetMaxCompressedSize (source.length : ℤ) then
        RESULT_ERROR_BUFFER_TOO_SMALL
      else RESULT_OK := by
  simp only [Compress]
  by_cases h0 : source.length = 0
  · rw [if_pos h0, if_pos (Or.inl h0)]
  · rw [if_neg h0]
    by_cases h1 : destLen < GetMaxCompressedSize (source.length : ℤ)
    · rw [if_pos h1, if_pos (Or.inr h1)]
    · rw [if_neg h1, if_neg (not_or.mpr ⟨h0, h1⟩)]
      refine compressLoop_ok source _ _ _ _ ?_
      dsimp only
      rw [Skip_position, SetBuffer_position]
      push_cast
      omega

end Doboz
